import Mathlib

/-!
Verification development for the KingshotScheduleMaker slot-assignment core
(`prep-appointments/src/schedule/`): the generic popularity-ranked greedy
assigner, the depth-bounded eviction-chain search and applier, and the
construction/research/troops day specializations.

The Rust code is shallowly embedded: `HashMap<u8, ScheduledAppointment>`
becomes an association list with replace-on-insert (Rust `HashMap` equality is
extensional, and the core never iterates the map except to take the maximum
key), `HashSet<u8>`/`HashSet<String>` become lists queried only through
membership, `Vec::sort_by` (a stable sort) becomes a stable insertion sort,
and the recursive chain search gets a structural fuel argument that is
instantiated to exactly `max_depth + 1 - depth`, the quantity that bounds the
Rust recursion.  `eprintln!` diagnostics are collected in a list of strings.
-/

namespace Kingshot

/-- Mirror of `parser.rs` `AppointmentEntry`. Slot ordinals (`u8`) and scores
(`u32`) are modelled as `Nat`; the core performs no slot arithmetic and no
score arithmetic other than the construction-day combined-score addition. -/
structure AppointmentEntry where
  alliance : String
  name : String
  player_id : String
  wants_construction : Bool
  wants_research : Bool
  wants_troops : Bool
  construction_speedups : Nat
  research_speedups : Nat
  troops_speedups : Nat
  construction_truegold : Nat
  construction_score : Nat
  research_truegold_dust : Nat
  research_score : Nat
  construction_available_slots : List Nat
  research_available_slots : List Nat
  troops_available_slots : List Nat
deriving DecidableEq

/-- Mirror of `types.rs` `ScheduledAppointment`. -/
structure ScheduledAppointment where
  player_id : String
  name : String
  alliance : String
  slot : Nat
  priority_score : Nat
deriving DecidableEq

/-- Mirror of `types.rs` `Move`. -/
structure Move where
  player_id : String
  from_slot : Nat
  to_slot : Nat
deriving DecidableEq

/-- The slot-to-appointment map of a `DaySchedule`, as an association list. -/
abbrev Schedule := List (Nat × ScheduledAppointment)

/-- The `player_id -> &AppointmentEntry` lookup map built by the schedulers. -/
abbrev EntryMap := List (String × AppointmentEntry)

/-- Mirror of `types.rs` `DaySchedule`. -/
structure DaySchedule where
  appointments : Schedule
  unassigned : List String
deriving DecidableEq

/-- `HashMap::get` on the slot map. -/
def mapGet (m : Schedule) (k : Nat) : Option ScheduledAppointment :=
  (m.find? (fun p => p.1 == k)).map (fun p => p.2)

/-- `HashMap::remove` on the slot map. -/
def mapRemove (m : Schedule) (k : Nat) : Schedule :=
  m.filter (fun p => p.1 != k)

/-- `HashMap::insert` on the slot map (replaces any existing binding). -/
def mapInsert (m : Schedule) (k : Nat) (v : ScheduledAppointment) : Schedule :=
  (k, v) :: mapRemove m k

/-- `HashMap::extend`: insert every binding of `adds` into `base`. -/
def mapExtend (base : Schedule) (adds : Schedule) : Schedule :=
  adds.foldl (fun m p => mapInsert m p.1 p.2) base

/-- The keys of the slot map. -/
def keysOf (m : Schedule) : List Nat := m.map (fun p => p.1)

/-- The `player_id`s stored in the slot map. -/
def pidsOf (m : Schedule) : List String := m.map (fun p => p.2.player_id)

/-- `HashMap::get` on the entry map. -/
def emapGet (m : EntryMap) (pid : String) : Option AppointmentEntry :=
  (m.find? (fun p => p.1 == pid)).map (fun p => p.2)

/-- `HashMap::insert` on the entry map. -/
def emapInsert (m : EntryMap) (pid : String) (e : AppointmentEntry) : EntryMap :=
  (pid, e) :: m.filter (fun p => p.1 != pid)

/-- Building the `entry_map` by inserting each candidate in order
(`candidates.iter().map(...).collect()`; later duplicates overwrite). -/
def buildEntryMap (l : List AppointmentEntry) : EntryMap :=
  l.foldl (fun m e => emapInsert m e.player_id e) []

/-- Stable insertion of `a` into a sorted list: `a` is placed after every
element `y` with `lt y a` (`y` strictly before `a` in the sort order). -/
def insByLt (lt : α → α → Bool) (a : α) : List α → List α
  | [] => [a]
  | y :: ys => if lt y a then y :: insByLt lt a ys else a :: y :: ys

/-- Stable sort by the strict-order test `lt`; for a total preorder this is
exactly the result of Rust's stable `sort_by`. -/
def sortByLt (lt : α → α → Bool) (l : List α) : List α :=
  l.foldr (insByLt lt) []

/-- Rust `sort_by(|a, b| key(b).cmp(&key(a)))`: stable sort descending. -/
def sortByKeyDesc (f : α → Nat) (l : List α) : List α :=
  sortByLt (fun y a => decide (f a < f y)) l

/-- Rust `sort_by(|a, b| key(a).cmp(&key(b)))`: stable sort ascending. -/
def sortByKeyAsc (f : α → Nat) (l : List α) : List α :=
  sortByLt (fun y a => decide (f y < f a)) l

/-- Mirror of `slot_utils.rs` `calculate_slot_rankings`: how many availability
lists mention each slot (`HashMap` absence read back as `0`). -/
def calculate_slot_rankings (available_slots_list : List (List Nat)) : Nat → Nat :=
  fun slot => (available_slots_list.map (fun l => l.count slot)).sum

/-- Popularity signal used inside the chain search for an occupied slot:
`schedule.get(&slot).map(|_| 1).unwrap_or(0)`. -/
def occupiedRank (schedule : Schedule) (slot : Nat) : Nat :=
  match mapGet schedule slot with
  | some _ => 1
  | none => 0

/-- The candidate-slot loop of `find_move_chain` (`move_chain.rs` lines
54-100), abstracted over the recursive call `rec` which receives the blocking
player, the contested slot, that player's availability and the grown visited
set. -/
def chainLoopF
    (rec : String → Nat → List Nat → List String → Option (List Move))
    (player_id : String) (current_slot : Nat) (schedule : Schedule)
    (entry_map : EntryMap) (get_available_slots : AppointmentEntry → List Nat)
    (visited : List String) (locked_slots : List Nat) :
    List (Nat × Nat) → Option (List Move)
  | [] => none
  | (target_slot, _pr) :: rest =>
    match mapGet schedule target_slot with
    | none =>
      chainLoopF rec player_id current_slot schedule entry_map
        get_available_slots visited locked_slots rest
    | some blocking_appt =>
      if target_slot ∈ locked_slots then
        chainLoopF rec player_id current_slot schedule entry_map
          get_available_slots visited locked_slots rest
      else if blocking_appt.player_id ∈ visited then
        chainLoopF rec player_id current_slot schedule entry_map
          get_available_slots visited locked_slots rest
      else
        match emapGet entry_map blocking_appt.player_id with
        | none =>
          chainLoopF rec player_id current_slot schedule entry_map
            get_available_slots visited locked_slots rest
        | some blocking_entry =>
          match rec blocking_appt.player_id target_slot
              (get_available_slots blocking_entry)
              (blocking_appt.player_id :: visited) with
          | some sub_chain =>
            some (⟨player_id, current_slot, target_slot⟩ :: sub_chain)
          | none =>
            chainLoopF rec player_id current_slot schedule entry_map
              get_available_slots visited locked_slots rest

/-- Fuelled form of `move_chain.rs` `find_move_chain`.  The fuel is a purely
structural termination device: `find_move_chain` instantiates it with
`max_depth + 1 - depth`, which is `0` exactly when the Rust guard
`depth > max_depth` fires, so the `0`-fuel result `none` agrees with the
guard, and one unit of fuel is consumed per `depth + 1` recursion. -/
def find_move_chain_fuel : Nat → String → Nat → List Nat → Schedule →
    List Nat → EntryMap → (AppointmentEntry → List Nat) → Nat → Nat →
    List String → List Nat → Option (List Move)
  | 0, _, _, _, _, _, _, _, _, _, _, _ => none
  | fuel + 1, player_id, current_slot, available_slots, schedule, used_slots,
      entry_map, get_available_slots, depth, max_depth, visited, locked_slots =>
    if max_depth < depth then none
    else if current_slot ∈ locked_slots then none
    else
      match available_slots.find?
          (fun s => decide (s ≠ current_slot ∧ s ∉ used_slots)) with
      | some slot => some [⟨player_id, current_slot, slot⟩]
      | none =>
        let slot_priorities : List (Nat × Nat) :=
          sortByKeyDesc (fun p => p.2)
            ((available_slots.filter (fun s => decide (s ≠ current_slot))).map
              (fun s => (s, occupiedRank schedule s)))
        chainLoopF
          (fun pid cur avail vis =>
            find_move_chain_fuel fuel pid cur avail schedule used_slots
              entry_map get_available_slots (depth + 1) max_depth vis
              locked_slots)
          player_id current_slot schedule entry_map get_available_slots
          visited locked_slots slot_priorities

/-- Mirror of `move_chain.rs` `find_move_chain`. -/
def find_move_chain (player_id : String) (current_slot : Nat)
    (available_slots : List Nat) (schedule : Schedule) (used_slots : List Nat)
    (entry_map : EntryMap) (get_available_slots : AppointmentEntry → List Nat)
    (depth max_depth : Nat) (visited : List String) (locked_slots : List Nat) :
    Option (List Move) :=
  find_move_chain_fuel (max_depth + 1 - depth) player_id current_slot
    available_slots schedule used_slots entry_map get_available_slots depth
    max_depth visited locked_slots

/-- State threaded through `apply_move_chain`: the schedule, the used-slot
set, and the diagnostics printed to stderr. -/
structure ApplyState where
  schedule : Schedule
  used : List Nat
  diags : List String
deriving DecidableEq

/-- One iteration of the `apply_move_chain` loop body
(`move_chain.rs` lines 114-127). -/
def applyOneMove (mv : Move) (st : ApplyState) : ApplyState :=
  match mapGet st.schedule mv.from_slot with
  | none => st
  | some appt =>
    if appt.player_id = mv.player_id then
      { schedule :=
          mapInsert (mapRemove st.schedule mv.from_slot) mv.to_slot
            { appt with slot := mv.to_slot }
        used := mv.to_slot :: st.used.filter (fun s => s != mv.from_slot)
        diags := st.diags }
    else
      { schedule :=
          mapInsert (mapRemove st.schedule mv.from_slot) mv.from_slot appt
        used := st.used
        diags := st.diags ++
          ["Warning: Attempted to move wrong player from slot " ++
            toString mv.from_slot] }

/-- Mirror of `move_chain.rs` `apply_move_chain`: moves applied in reverse
order. -/
def apply_move_chain (moves : List Move) (schedule : Schedule)
    (used_slots : List Nat) : ApplyState :=
  moves.reverse.foldl (fun st mv => applyOneMove mv st)
    ⟨schedule, used_slots, []⟩

/-- Working state of a day-scheduler run. -/
structure SchedState where
  schedule : Schedule
  used : List Nat
  unassigned : List String
deriving DecidableEq

/-- The `ScheduledAppointment` built by the schedulers for `entry` at
`slot` with priority `score`. -/
def mkAppt (e : AppointmentEntry) (slot : Nat) (score : Nat) :
    ScheduledAppointment :=
  ⟨e.player_id, e.name, e.alliance, slot, score⟩

/-- Personal availability re-ranked by popularity, descending
(`generic.rs` lines 66-70). -/
def rankSlots (rankings : Nat → Nat) (avail : List Nat) : List (Nat × Nat) :=
  sortByKeyDesc (fun p => p.2) (avail.map (fun s => (s, rankings s)))

/-- The slot-stealing loop of the generic assigner (`generic.rs` lines
104-146); returns `some` updated state on the first successful chain. -/
def stealLoop (entry : AppointmentEntry) (score : Nat)
    (get_available_slots : AppointmentEntry → List Nat) (entry_map : EntryMap)
    (locked_slots : List Nat) :
    List (Nat × String × Nat) → SchedState → Option SchedState
  | [], _ => none
  | (requested_slot, _bpid, _bscore) :: rest, st =>
    match mapGet st.schedule requested_slot with
    | none =>
      stealLoop entry score get_available_slots entry_map locked_slots rest st
    | some blocking_appt =>
      match emapGet entry_map blocking_appt.player_id with
      | none =>
        stealLoop entry score get_available_slots entry_map locked_slots rest st
      | some blocking_entry =>
        match find_move_chain blocking_appt.player_id requested_slot
            (get_available_slots blocking_entry) st.schedule st.used entry_map
            get_available_slots 1 5 [blocking_appt.player_id] locked_slots with
        | none =>
          stealLoop entry score get_available_slots entry_map locked_slots
            rest st
        | some move_chain =>
          let applied := apply_move_chain move_chain st.schedule st.used
          some
            { schedule :=
                mapInsert applied.schedule requested_slot
                  (mkAppt entry requested_slot score)
              used := requested_slot :: applied.used
              unassigned := st.unassigned }

/-- Per-candidate body of the generic assigner's main loop
(`generic.rs` lines 62-152). -/
def processEntry (get_available_slots : AppointmentEntry → List Nat)
    (get_priority_score : AppointmentEntry → Nat) (rankings : Nat → Nat)
    (entry_map : EntryMap) (locked_slots : List Nat) (st : SchedState)
    (entry : AppointmentEntry) : SchedState :=
  let ranked_slots := rankSlots rankings (get_available_slots entry)
  match ranked_slots.find? (fun p => decide (p.1 ∉ st.used)) with
  | some p =>
    { schedule :=
        mapInsert st.schedule p.1 (mkAppt entry p.1 (get_priority_score entry))
      used := p.1 :: st.used
      unassigned := st.unassigned }
  | none =>
    let blocking_players : List (Nat × String × Nat) :=
      sortByKeyAsc (fun b => b.2.2)
        (ranked_slots.filterMap (fun p =>
          (mapGet st.schedule p.1).map
            (fun a => (p.1, a.player_id, a.priority_score))))
    match stealLoop entry (get_priority_score entry) get_available_slots
        entry_map locked_slots blocking_players st with
    | some st' => st'
    | none =>
      { schedule := st.schedule
        used := st.used
        unassigned := st.unassigned ++ [entry.player_id] }

/-- Mirror of `generic.rs` `schedule_day_generic_with_locked_slots`. -/
def schedule_day_generic_with_locked_slots (entries : List AppointmentEntry)
    (wants_filter : AppointmentEntry → Bool)
    (get_available_slots : AppointmentEntry → List Nat)
    (get_priority_score : AppointmentEntry → Nat)
    (pre_locked_slots : List Nat) (locked_slots : List Nat) : DaySchedule :=
  let candidates := entries.filter
    (fun e => wants_filter e && !(get_available_slots e).isEmpty)
  let rankings := calculate_slot_rankings (candidates.map get_available_slots)
  let sorted := sortByKeyDesc get_priority_score candidates
  let entry_map := buildEntryMap sorted
  let final := sorted.foldl
    (processEntry get_available_slots get_priority_score rankings entry_map
      locked_slots)
    ⟨[], pre_locked_slots, []⟩
  ⟨final.schedule, final.unassigned⟩

/-- Mirror of `generic.rs` `schedule_day_generic`. -/
def schedule_day_generic (entries : List AppointmentEntry)
    (wants_filter : AppointmentEntry → Bool)
    (get_available_slots : AppointmentEntry → List Nat)
    (get_priority_score : AppointmentEntry → Nat) : DaySchedule :=
  schedule_day_generic_with_locked_slots entries wants_filter
    get_available_slots get_priority_score [] []

/-- Mirror of `troops.rs` `schedule_troops_day_with_locked`. -/
def schedule_troops_day_with_locked (entries : List AppointmentEntry)
    (pre_locked_slots : List Nat) : DaySchedule :=
  schedule_day_generic_with_locked_slots entries (fun e => e.wants_troops)
    (fun e => e.troops_available_slots) (fun e => e.troops_speedups)
    pre_locked_slots []

/-- Mirror of `troops.rs` `schedule_troops_day`. -/
def schedule_troops_day (entries : List AppointmentEntry) : DaySchedule :=
  schedule_troops_day_with_locked entries []

/-- Combined score of the current holder of construction's maximum slot
(`construction.rs` lines 150-160 and 197-201): construction score, plus
research score exactly when the holder wants research and lists research
slot 1 as available. -/
def combinedScoreOf (e : AppointmentEntry) : Nat :=
  if e.wants_research ∧ 1 ∈ e.research_available_slots then
    e.construction_score + e.research_score
  else e.construction_score

/-- Predicate for the construction priority bucket (`construction.rs` lines
33-37): wants research, lists research slot 1, and lists construction's
maximum slot. -/
def consIsPriority (last_slot : Nat) (e : AppointmentEntry) : Bool :=
  e.wants_research && decide (1 ∈ e.research_available_slots) &&
    decide (last_slot ∈ e.construction_available_slots)

/-- Comparator of the construction blocking-player sort (`construction.rs`
lines 173-181): combined score when either side is the maximum slot,
otherwise plain priority score, ascending; `lt x y` means `x` sorts strictly
before `y`. -/
def consBlockLt (last_slot : Nat) (x y : Nat × String × Nat × Nat) : Bool :=
  if x.1 = last_slot ∨ y.1 = last_slot then decide (x.2.2.2 < y.2.2.2)
  else decide (x.2.2.1 < y.2.2.1)

/-- The combined-score gate of the construction steal loop
(`construction.rs` lines 186-209): when the contested slot is the maximum
slot and both the occupant and its candidate record are found, the steal is
skipped unless the requester's combined score strictly exceeds the
occupant's. -/
def consGateSkip (entry : AppointmentEntry) (entry_map : EntryMap)
    (last_slot requested_slot : Nat) (sched : Schedule) : Bool :=
  if requested_slot = last_slot then
    match mapGet sched requested_slot with
    | some blocking_appt =>
      match emapGet entry_map blocking_appt.player_id with
      | some blocking_entry =>
        decide (combinedScoreOf entry ≤ combinedScoreOf blocking_entry)
      | none => false
    | none => false
  else false

/-- The slot-stealing loop of the construction scheduler (`construction.rs`
lines 184-251), including the combined-score gate on the maximum slot. -/
def consStealLoop (entry : AppointmentEntry) (entry_map : EntryMap)
    (last_slot : Nat) :
    List (Nat × String × Nat × Nat) → SchedState → Option SchedState
  | [], _ => none
  | (requested_slot, _bpid, _bscore, _bcombined) :: rest, st =>
    if consGateSkip entry entry_map last_slot requested_slot st.schedule then
      consStealLoop entry entry_map last_slot rest st
    else
      match mapGet st.schedule requested_slot with
      | none => consStealLoop entry entry_map last_slot rest st
      | some blocking_appt =>
        match emapGet entry_map blocking_appt.player_id with
        | none => consStealLoop entry entry_map last_slot rest st
        | some blocking_entry =>
          match find_move_chain blocking_appt.player_id requested_slot
              blocking_entry.construction_available_slots st.schedule st.used
              entry_map (fun e => e.construction_available_slots) 1 5
              [blocking_appt.player_id] [] with
          | none => consStealLoop entry entry_map last_slot rest st
          | some move_chain =>
            let applied := apply_move_chain move_chain st.schedule st.used
            some
              { schedule :=
                  mapInsert applied.schedule requested_slot
                    (mkAppt entry requested_slot entry.construction_score)
                used := requested_slot :: applied.used
                unassigned := st.unassigned }

/-- Per-candidate body of the construction scheduler's main loop
(`construction.rs` lines 112-257). -/
def consProcessEntry (rankings : Nat → Nat) (entry_map : EntryMap)
    (last_slot : Nat) (st : SchedState) (entry : AppointmentEntry) :
    SchedState :=
  let ranked_slots := rankSlots rankings entry.construction_available_slots
  match ranked_slots.find? (fun p => decide (p.1 ∉ st.used)) with
  | some p =>
    { schedule :=
        mapInsert st.schedule p.1 (mkAppt entry p.1 entry.construction_score)
      used := p.1 :: st.used
      unassigned := st.unassigned }
  | none =>
    let blocking_players : List (Nat × String × Nat × Nat) :=
      sortByLt (consBlockLt last_slot)
        (ranked_slots.filterMap (fun p =>
          match mapGet st.schedule p.1 with
          | none => none
          | some a =>
            match emapGet entry_map a.player_id with
            | none => none
            | some blocking_entry =>
              some (p.1, a.player_id, a.priority_score,
                if p.1 = last_slot then combinedScoreOf blocking_entry
                else a.priority_score)))
    match consStealLoop entry entry_map last_slot blocking_players st with
    | some st' => st'
    | none =>
      { schedule := st.schedule
        used := st.used
        unassigned := st.unassigned ++ [entry.player_id] }

/-- The construction candidate filter (`construction.rs` lines 16-19). -/
def consCandidates (entries : List AppointmentEntry) :
    List AppointmentEntry :=
  entries.filter
    (fun e => e.wants_construction && !e.construction_available_slots.isEmpty)

/-- The maximum construction slot over all candidates, with the legacy `49`
fallback (`construction.rs` lines 22-26). -/
def consLastSlot (candidates : List AppointmentEntry) : Nat :=
  ((candidates.flatMap
    (fun e => e.construction_available_slots)).max?).getD 49

/-- The sorted priority bucket (`construction.rs` lines 31-54). -/
def consPrio (last_slot : Nat) (candidates : List AppointmentEntry) :
    List AppointmentEntry :=
  sortByKeyDesc (fun e => e.construction_score)
    (candidates.filter (consIsPriority last_slot))

/-- The sorted non-priority bucket (`construction.rs` lines 41-59). -/
def consOther (last_slot : Nat) (candidates : List AppointmentEntry) :
    List AppointmentEntry :=
  sortByKeyDesc (fun e => e.construction_score)
    (candidates.filter (fun e => !consIsPriority last_slot e))

/-- The initial maximum-slot assignment loop (`construction.rs` lines
78-93): the first priority candidate that lists the maximum slot, provided
the slot is not already used. -/
def consWinner (last_slot : Nat) (prio : List AppointmentEntry)
    (pre_locked_slots : List Nat) : Option AppointmentEntry :=
  prio.find? (fun e =>
    decide (last_slot ∈ e.construction_available_slots) &&
      decide (last_slot ∉ pre_locked_slots))

/-- Schedule state after the initial maximum-slot assignment. -/
def consSchedule0 (last_slot : Nat) (w : Option AppointmentEntry) :
    Schedule :=
  match w with
  | some e => [(last_slot, mkAppt e last_slot e.construction_score)]
  | none => []

/-- Used-slot state after the initial maximum-slot assignment. -/
def consUsed0 (last_slot : Nat) (w : Option AppointmentEntry)
    (pre_locked_slots : List Nat) : List Nat :=
  match w with
  | some _ => last_slot :: pre_locked_slots
  | none => pre_locked_slots

/-- The filter removing the maximum-slot winner from the priority bucket
(`construction.rs` lines 96-103). -/
def consRemaining0 (last_slot : Nat) (w : Option AppointmentEntry)
    (prio : List AppointmentEntry) (schedule0 : Schedule)
    (used0 : List Nat) : List AppointmentEntry :=
  match w with
  | some _ =>
    prio.filter (fun e =>
      decide (last_slot ∉ used0) ||
        (match mapGet schedule0 last_slot with
         | some a => a.player_id != e.player_id
         | none => true))
  | none => prio

/-- Mirror of `construction.rs` `schedule_construction_day_with_locked`. -/
def schedule_construction_day_with_locked (entries : List AppointmentEntry)
    (pre_locked_slots : List Nat) : DaySchedule :=
  let candidates := consCandidates entries
  let last_slot := consLastSlot candidates
  let last_slot_priority := consPrio last_slot candidates
  let other_candidates := consOther last_slot candidates
  let rankings := calculate_slot_rankings
    (candidates.map (fun e => e.construction_available_slots))
  let entry_map := buildEntryMap candidates
  let w := consWinner last_slot last_slot_priority pre_locked_slots
  let schedule0 := consSchedule0 last_slot w
  let used0 := consUsed0 last_slot w pre_locked_slots
  let remaining0 :=
    consRemaining0 last_slot w last_slot_priority schedule0 used0
  let remaining := sortByKeyDesc (fun e => e.construction_score)
    (remaining0 ++ other_candidates)
  let final := remaining.foldl
    (consProcessEntry rankings entry_map last_slot)
    ⟨schedule0, used0, []⟩
  ⟨final.schedule, final.unassigned⟩

/-- Mirror of `construction.rs` `schedule_construction_day`. -/
def schedule_construction_day (entries : List AppointmentEntry) :
    DaySchedule :=
  schedule_construction_day_with_locked entries []

/-- The forced research seat (`research.rs` lines 21-48): the occupant of
construction's maximum slot, provided their entry is found, they want
research, list research slot 1, and slot 1 is not already predetermined. -/
def researchSeat (entries : List AppointmentEntry)
    (construction_schedule : DaySchedule) (pre_locked_slots : List Nat) :
    Option AppointmentEntry :=
  match (keysOf construction_schedule.appointments).max? with
  | none => none
  | some last_slot =>
    match mapGet construction_schedule.appointments last_slot with
    | none => none
    | some construction_appt =>
      match entries.find?
          (fun e => e.player_id == construction_appt.player_id) with
      | none => none
      | some entry =>
        if entry.wants_research &&
            decide (1 ∈ entry.research_available_slots) &&
            decide (1 ∉ pre_locked_slots) then
          some entry
        else none

/-- Schedule state after the forced research seat. -/
def researchSchedule1 (seat : Option AppointmentEntry) : Schedule :=
  match seat with
  | some e => [(1, ⟨e.player_id, e.name, e.alliance, 1, e.research_score⟩)]
  | none => []

/-- Used-slot state after the forced research seat. -/
def researchUsed1 (seat : Option AppointmentEntry)
    (pre_locked_slots : List Nat) : List Nat :=
  match seat with
  | some _ => 1 :: pre_locked_slots
  | none => pre_locked_slots

/-- Mirror of `research.rs` `schedule_research_day_with_locked`. -/
def schedule_research_day_with_locked (entries : List AppointmentEntry)
    (construction_schedule : DaySchedule) (pre_locked_slots : List Nat) :
    DaySchedule :=
  let seat := researchSeat entries construction_schedule pre_locked_slots
  let schedule1 := researchSchedule1 seat
  let used1 := researchUsed1 seat pre_locked_slots
  let locked_player_id : Option String := seat.map (fun e => e.player_id)
  let locked_slots : List Nat := if 1 ∈ used1 then [1] else []
  let filtered_entries := entries.filter (fun e =>
    match locked_player_id with
    | some locked_id => e.player_id != locked_id
    | none => true)
  let remaining := schedule_day_generic_with_locked_slots filtered_entries
    (fun e => e.wants_research) (fun e => e.research_available_slots)
    (fun e => e.research_score) used1 locked_slots
  ⟨mapExtend schedule1 remaining.appointments, remaining.unassigned⟩

/-- Mirror of `research.rs` `schedule_research_day`. -/
def schedule_research_day (entries : List AppointmentEntry)
    (construction_schedule : DaySchedule) : DaySchedule :=
  schedule_research_day_with_locked entries construction_schedule []

/-- The `to_slot` of the final (deepest) move of a chain. -/
def chainLastTo (chain : List Move) : Option Nat :=
  chain.getLast?.map (fun m => m.to_slot)

/-- Structural well-formedness of a chain produced by `find_move_chain`
against the schedule and used-slot set it was searched in: every move
displaces the recorded occupant of its `from_slot`, consecutive moves are
linked (`to_slot` of a move is the `from_slot` of the next), no move is a
self-move, and the final move lands on an unused slot. -/
inductive ChainOK (sched : Schedule) (used : List Nat) : List Move → Prop
  | single (m : Move) (appt : ScheduledAppointment)
      (hget : mapGet sched m.from_slot = some appt)
      (hpid : appt.player_id = m.player_id)
      (hfree : m.to_slot ∉ used) (hne : m.to_slot ≠ m.from_slot) :
      ChainOK sched used [m]
  | cons (m m' : Move) (rest : List Move) (appt : ScheduledAppointment)
      (hget : mapGet sched m.from_slot = some appt)
      (hpid : appt.player_id = m.player_id)
      (hlink : m.to_slot = m'.from_slot) (hne : m.to_slot ≠ m.from_slot)
      (htail : ChainOK sched used (m' :: rest)) :
      ChainOK sched used (m :: m' :: rest)

/-- Run invariant of a day-scheduler working state, relative to the
pre-locked slot set `P`: map keys are distinct, stored `player_id`s are
distinct, every key is a used slot, every pre-locked slot is a used slot, no
key is pre-locked, and every stored appointment records the slot it is keyed
under. -/
structure SInv (P : List Nat) (st : SchedState) : Prop where
  keys_nodup : (keysOf st.schedule).Nodup
  pids_nodup : (pidsOf st.schedule).Nodup
  keys_used : ∀ k ∈ keysOf st.schedule, k ∈ st.used
  pre_used : ∀ s ∈ P, s ∈ st.used
  keys_pre : ∀ k ∈ keysOf st.schedule, k ∉ P
  slot_agree : ∀ k a, mapGet st.schedule k = some a → a.slot = k

/-- Specification of one iteration of a day scheduler's per-candidate loop:
it preserves the run invariant, and either seats the candidate (their
`player_id` is added to the schedule, the unassigned list is unchanged) or
appends exactly their `player_id` to the unassigned list, leaving the
schedule's `player_id` set unchanged. -/
def StepSpec (P : List Nat)
    (step : SchedState → AppointmentEntry → SchedState) : Prop :=
  ∀ st entry, SInv P st →
    AppointmentEntry.player_id entry ∉ pidsOf st.schedule →
    SInv P (step st entry) ∧
    (((∀ p, p ∈ pidsOf (step st entry).schedule ↔
        (p ∈ pidsOf st.schedule ∨ p = AppointmentEntry.player_id entry)) ∧
      (step st entry).unassigned = st.unassigned) ∨
     ((∀ p, p ∈ pidsOf (step st entry).schedule ↔
        p ∈ pidsOf st.schedule) ∧
      (step st entry).unassigned =
        st.unassigned ++ [AppointmentEntry.player_id entry]))

/-- Slim unconditional run invariant (no assumption on `player_id`s): map
keys are distinct, every key is used, every pre-locked slot is used, no key
is pre-locked, and each appointment records the slot it is keyed under. -/
structure BInv (P : List Nat) (st : SchedState) : Prop where
  keys_nodup : (keysOf st.schedule).Nodup
  keys_used : ∀ k ∈ keysOf st.schedule, k ∈ st.used
  pre_used : ∀ s ∈ P, s ∈ st.used
  keys_pre : ∀ k ∈ keysOf st.schedule, k ∉ P
  slot_agree : ∀ k a, mapGet st.schedule k = some a → a.slot = k

/-- Candidate A of the spec's Example A: troops priority score 100,
troops availability slots 1 and 5. -/
def exA : AppointmentEntry :=
  ⟨"X", "A", "A", false, false, true, 0, 0, 100, 0, 0, 0, 0, [], [], [1, 5]⟩

/-- Candidate B of the spec's Example A: troops priority score 50, troops
availability slot 5 only. -/
def exB : AppointmentEntry :=
  ⟨"X", "B", "B", false, false, true, 0, 0, 50, 0, 0, 0, 0, [], [], [5]⟩

/-- Construction candidate with combined score 10 (does not want research),
challenging the maximum slot. -/
def exC : AppointmentEntry :=
  ⟨"X", "C", "C", true, false, false, 0, 0, 0, 0, 10, 0, 0, [9], [], []⟩

/-- Construction candidate with combined score 100 (does not want
research), holding the maximum slot. -/
def exD : AppointmentEntry :=
  ⟨"X", "D", "D", true, false, false, 0, 0, 0, 0, 100, 0, 0, [9], [], []⟩

/-- Candidate holding construction's maximum slot who wants research and
lists research slot 1. -/
def exR : AppointmentEntry :=
  ⟨"X", "R", "R", true, true, false, 0, 0, 0, 0, 50, 0, 40, [3], [1], []⟩

/-! ### Association-map lemmas -/

theorem mapGet_cons (p : Nat × ScheduledAppointment) (m : Schedule) (k : Nat) :
    mapGet (p :: m) k = if p.1 = k then some p.2 else mapGet m k := by
  by_cases h : p.1 = k <;> simp [mapGet, List.find?_cons, h]

theorem mapGet_mapRemove (m : Schedule) (k k' : Nat) :
    mapGet (mapRemove m k) k' = if k = k' then none else mapGet m k' := by
  induction m with
  | nil => by_cases h : k = k' <;> simp [mapGet, mapRemove, h]
  | cons p m ih =>
    by_cases hp : p.1 = k
    · have h1 : mapRemove (p :: m) k = mapRemove m k := by
        simp [mapRemove, List.filter_cons, hp]
      rw [h1, ih, mapGet_cons]
      by_cases h : k = k'
      · simp [h]
      · have hpk : ¬ p.1 = k' := by rw [hp]; exact h
        simp [h, hpk]
    · have h1 : mapRemove (p :: m) k = p :: mapRemove m k := by
        simp [mapRemove, List.filter_cons, bne_iff_ne, hp]
      rw [h1, mapGet_cons, ih, mapGet_cons]
      by_cases hk : p.1 = k'
      · have hne : ¬ k = k' := fun he => hp (by rw [he]; exact hk)
        simp [hk, hne]
      · simp [hk]

theorem mapGet_mapInsert (m : Schedule) (k : Nat) (v : ScheduledAppointment)
    (k' : Nat) :
    mapGet (mapInsert m k v) k' = if k = k' then some v else mapGet m k' := by
  by_cases h : k = k' <;>
    simp [mapInsert, mapGet_cons, mapGet_mapRemove, h]

theorem keysOf_mapRemove_sublist (m : Schedule) (k : Nat) :
    (keysOf (mapRemove m k)).Sublist (keysOf m) := by
  unfold keysOf mapRemove
  exact (List.filter_sublist m).map _

theorem pidsOf_mapRemove_sublist (m : Schedule) (k : Nat) :
    (pidsOf (mapRemove m k)).Sublist (pidsOf m) := by
  unfold pidsOf mapRemove
  exact (List.filter_sublist m).map _

theorem not_mem_keysOf_mapRemove (m : Schedule) (k : Nat) :
    k ∉ keysOf (mapRemove m k) := by
  intro h
  rcases List.mem_map.mp h with ⟨p, hp, hk⟩
  have := List.of_mem_filter hp
  simp [hk] at this

theorem keysOf_mapInsert (m : Schedule) (k : Nat) (v : ScheduledAppointment) :
    keysOf (mapInsert m k v) = k :: keysOf (mapRemove m k) := rfl

theorem pidsOf_mapInsert (m : Schedule) (k : Nat) (v : ScheduledAppointment) :
    pidsOf (mapInsert m k v) = v.player_id :: pidsOf (mapRemove m k) := rfl

theorem keysOf_nodup_mapInsert (m : Schedule) (k : Nat)
    (v : ScheduledAppointment) (h : (keysOf m).Nodup) :
    (keysOf (mapInsert m k v)).Nodup := by
  rw [keysOf_mapInsert]
  exact List.Nodup.cons (not_mem_keysOf_mapRemove m k)
    (h.sublist (keysOf_mapRemove_sublist m k))

theorem pidsOf_nodup_mapInsert (m : Schedule) (k : Nat)
    (v : ScheduledAppointment) (h : (pidsOf m).Nodup)
    (hv : v.player_id ∉ pidsOf (mapRemove m k)) :
    (pidsOf (mapInsert m k v)).Nodup := by
  rw [pidsOf_mapInsert]
  exact List.Nodup.cons hv (h.sublist (pidsOf_mapRemove_sublist m k))

theorem mapGet_eq_none_iff (m : Schedule) (k : Nat) :
    mapGet m k = none ↔ k ∉ keysOf m := by
  induction m with
  | nil => simp [mapGet, keysOf]
  | cons p m ih =>
    rw [mapGet_cons]
    by_cases h : p.1 = k
    · simp [h, keysOf]
    · simp [h, keysOf, ih, Ne.symm h]

theorem mapGet_mem (m : Schedule) (k : Nat) (v : ScheduledAppointment)
    (h : mapGet m k = some v) : (k, v) ∈ m := by
  induction m with
  | nil => simp [mapGet] at h
  | cons p m ih =>
    rw [mapGet_cons] at h
    by_cases hp : p.1 = k
    · rw [if_pos hp] at h
      have hv : p.2 = v := Option.some.inj h
      have hpkv : p = (k, v) := by
        cases p
        simp_all
      rw [hpkv]
      exact List.mem_cons_self _ _
    · rw [if_neg hp] at h
      exact List.mem_cons_of_mem _ (ih h)

theorem mem_keysOf_of_mapGet (m : Schedule) (k : Nat)
    (v : ScheduledAppointment) (h : mapGet m k = some v) : k ∈ keysOf m :=
  List.mem_map.mpr ⟨(k, v), mapGet_mem m k v h, rfl⟩

theorem mem_pidsOf_of_mapGet (m : Schedule) (k : Nat)
    (v : ScheduledAppointment) (h : mapGet m k = some v) :
    v.player_id ∈ pidsOf m :=
  List.mem_map.mpr ⟨(k, v), mapGet_mem m k v h, rfl⟩

theorem mapGet_of_mem (m : Schedule) (k : Nat) (v : ScheduledAppointment)
    (hnd : (keysOf m).Nodup) (h : (k, v) ∈ m) : mapGet m k = some v := by
  induction m with
  | nil => simp at h
  | cons p m ih =>
    rcases List.mem_cons.mp h with h | h
    · subst h
      simp [mapGet_cons]
    · rw [mapGet_cons]
      have hk : k ∈ keysOf m := List.mem_map.mpr ⟨(k, v), h, rfl⟩
      have hp : p.1 ≠ k := by
        intro he
        rw [keysOf, List.map_cons] at hnd
        exact (List.nodup_cons.mp hnd).1 (he ▸ hk)
      rw [if_neg hp]
      exact ih ((List.nodup_cons.mp hnd).2) h

theorem mapGet_pid_unique (m : Schedule) (hnd : (pidsOf m).Nodup)
    (k k' : Nat) (v v' : ScheduledAppointment)
    (h : mapGet m k = some v) (h' : mapGet m k' = some v')
    (hpid : v.player_id = v'.player_id) : k = k' := by
  induction m with
  | nil => simp [mapGet] at h
  | cons p m ih =>
    rw [mapGet_cons] at h h'
    simp only [pidsOf, List.map_cons, List.nodup_cons] at hnd
    by_cases hp : p.1 = k <;> by_cases hp' : p.1 = k'
    · omega
    · rw [if_pos hp] at h
      rw [if_neg hp'] at h'
      exfalso
      apply hnd.1
      have hm := mem_pidsOf_of_mapGet m k' v' h'
      have hv : p.2 = v := Option.some.inj h
      rw [hv, hpid]
      exact hm
    · rw [if_neg hp] at h
      rw [if_pos hp'] at h'
      exfalso
      apply hnd.1
      have hm := mem_pidsOf_of_mapGet m k v h
      have hv : p.2 = v' := Option.some.inj h'
      rw [hv, ← hpid]
      exact hm
    · rw [if_neg hp] at h
      rw [if_neg hp'] at h'
      exact ih hnd.2 h h'

/-! ### Stable-sort lemmas -/

theorem insByLt_perm (lt : α → α → Bool) (a : α) (l : List α) :
    (insByLt lt a l).Perm (a :: l) := by
  induction l with
  | nil => simp [insByLt]
  | cons y ys ih =>
    rw [insByLt]
    by_cases h : lt y a
    · rw [if_pos h]
      exact (ih.cons y).trans (List.Perm.swap a y ys)
    · rw [if_neg h]

theorem sortByLt_perm (lt : α → α → Bool) (l : List α) :
    (sortByLt lt l).Perm l := by
  induction l with
  | nil => simp [sortByLt]
  | cons a l ih =>
    have : sortByLt lt (a :: l) = insByLt lt a (sortByLt lt l) := rfl
    rw [this]
    exact (insByLt_perm lt a (sortByLt lt l)).trans (ih.cons a)

theorem mem_sortByLt (lt : α → α → Bool) (l : List α) (x : α) :
    x ∈ sortByLt lt l ↔ x ∈ l :=
  (sortByLt_perm lt l).mem_iff

theorem sortByKeyDesc_perm (f : α → Nat) (l : List α) :
    (sortByKeyDesc f l).Perm l :=
  sortByLt_perm _ l

theorem sortByKeyAsc_perm (f : α → Nat) (l : List α) :
    (sortByKeyAsc f l).Perm l :=
  sortByLt_perm _ l

/-! ### Chain-search lemmas -/

theorem chainLoopF_some
    (rec : String → Nat → List Nat → List String → Option (List Move))
    (player_id : String) (current_slot : Nat) (schedule : Schedule)
    (entry_map : EntryMap) (gav : AppointmentEntry → List Nat)
    (visited : List String) (locked : List Nat) (slots : List (Nat × Nat))
    (chain : List Move)
    (h : chainLoopF rec player_id current_slot schedule entry_map gav visited
      locked slots = some chain) :
    ∃ target pr blocking_appt blocking_entry sub_chain,
      (target, pr) ∈ slots ∧
      mapGet schedule target = some blocking_appt ∧
      target ∉ locked ∧
      blocking_appt.player_id ∉ visited ∧
      emapGet entry_map blocking_appt.player_id = some blocking_entry ∧
      rec blocking_appt.player_id target (gav blocking_entry)
        (blocking_appt.player_id :: visited) = some sub_chain ∧
      chain = ⟨player_id, current_slot, target⟩ :: sub_chain := by
  induction slots with
  | nil => simp [chainLoopF] at h
  | cons s rest ih =>
    obtain ⟨target, pr⟩ := s
    simp only [chainLoopF] at h
    split at h
    · obtain ⟨t, q, ba, be, sc, h1, h2, h3, h4, h5, h6, h7⟩ := ih h
      exact ⟨t, q, ba, be, sc, List.mem_cons_of_mem _ h1, h2, h3, h4, h5, h6,
        h7⟩
    · rename_i ba hget
      split at h
      · obtain ⟨t, q, ba', be, sc, h1, h2, h3, h4, h5, h6, h7⟩ := ih h
        exact ⟨t, q, ba', be, sc, List.mem_cons_of_mem _ h1, h2, h3, h4, h5,
          h6, h7⟩
      · rename_i hlock
        split at h
        · obtain ⟨t, q, ba', be, sc, h1, h2, h3, h4, h5, h6, h7⟩ := ih h
          exact ⟨t, q, ba', be, sc, List.mem_cons_of_mem _ h1, h2, h3, h4, h5,
            h6, h7⟩
        · rename_i hvis
          split at h
          · obtain ⟨t, q, ba', be, sc, h1, h2, h3, h4, h5, h6, h7⟩ := ih h
            exact ⟨t, q, ba', be, sc, List.mem_cons_of_mem _ h1, h2, h3, h4,
              h5, h6, h7⟩
          · rename_i be hemap
            split at h
            · rename_i sc hrec
              refine ⟨target, pr, ba, be, sc, List.mem_cons_self _ _, hget,
                hlock, hvis, hemap, hrec, ?_⟩
              exact (Option.some.inj h).symm
            · obtain ⟨t, q, ba', be', sc, h1, h2, h3, h4, h5, h6, h7⟩ := ih h
              exact ⟨t, q, ba', be', sc, List.mem_cons_of_mem _ h1, h2, h3,
                h4, h5, h6, h7⟩

theorem mem_slot_priorities_ne (avail : List Nat) (cur : Nat)
    (sched : Schedule) (t q : Nat)
    (h : (t, q) ∈ sortByKeyDesc (fun p => p.2)
      ((avail.filter (fun s => decide (s ≠ cur))).map
        (fun s => (s, occupiedRank sched s)))) : t ≠ cur := by
  have h1 := (sortByKeyDesc_perm _ _).subset h
  rcases List.mem_map.mp h1 with ⟨s, hs, heq⟩
  have hst : s = t := congrArg Prod.fst heq
  have := of_decide_eq_true (List.mem_filter.mp hs).2
  exact hst ▸ this

theorem find_move_chain_fuel_length : ∀ (fuel : Nat) (pid : String)
    (cur : Nat) (avail : List Nat) (sched : Schedule) (used : List Nat)
    (emap : EntryMap) (gav : AppointmentEntry → List Nat) (depth md : Nat)
    (vis : List String) (locked : List Nat) (chain : List Move),
    find_move_chain_fuel fuel pid cur avail sched used emap gav depth md vis
      locked = some chain →
    chain.length + depth ≤ md + 1 := by
  intro fuel
  induction fuel with
  | zero =>
    intro pid cur avail sched used emap gav depth md vis locked chain h
    simp [find_move_chain_fuel] at h
  | succ fuel ih =>
    intro pid cur avail sched used emap gav depth md vis locked chain h
    simp only [find_move_chain_fuel] at h
    split at h
    · simp at h
    · rename_i hmd
      split at h
      · simp at h
      · split at h
        · rename_i slot hfind
          have hc : [(⟨pid, cur, slot⟩ : Move)] = chain := Option.some.inj h
          rw [← hc]
          simp
          omega
        · obtain ⟨t, q, ba, be, sc, h1, h2, h3, h4, h5, h6, h7⟩ :=
            chainLoopF_some _ _ _ _ _ _ _ _ _ _ h
          have hsub := ih _ _ _ _ _ _ _ _ _ _ _ _ h6
          subst h7
          simp only [List.length_cons]
          omega

theorem find_move_chain_fuel_pids : ∀ (fuel : Nat) (pid : String) (cur : Nat)
    (avail : List Nat) (sched : Schedule) (used : List Nat) (emap : EntryMap)
    (gav : AppointmentEntry → List Nat) (depth md : Nat) (vis : List String)
    (locked : List Nat) (chain : List Move),
    pid ∈ vis →
    find_move_chain_fuel fuel pid cur avail sched used emap gav depth md vis
      locked = some chain →
    (chain.map Move.player_id).Nodup ∧
      ∀ q ∈ chain.map Move.player_id, q = pid ∨ q ∉ vis := by
  intro fuel
  induction fuel with
  | zero =>
    intro pid cur avail sched used emap gav depth md vis locked chain _ h
    simp [find_move_chain_fuel] at h
  | succ fuel ih =>
    intro pid cur avail sched used emap gav depth md vis locked chain hvis h
    simp only [find_move_chain_fuel] at h
    split at h
    · simp at h
    · split at h
      · simp at h
      · split at h
        · rename_i slot hfind
          have hc : [(⟨pid, cur, slot⟩ : Move)] = chain := Option.some.inj h
          rw [← hc]
          constructor
          · simp
          · intro q hq
            simp at hq
            exact Or.inl hq
        · obtain ⟨t, q, ba, be, sc, h1, h2, h3, h4, h5, h6, h7⟩ :=
            chainLoopF_some _ _ _ _ _ _ _ _ _ _ h
          have hsub := ih _ _ _ _ _ _ _ _ _ _ _ _
            (List.mem_cons_self _ _) h6
          subst h7
          obtain ⟨hnd, hq⟩ := hsub
          constructor
          · rw [List.map_cons]
            refine List.Nodup.cons ?_ hnd
            intro hmem
            rcases hq _ hmem with he | hne
            · exact h4 (he ▸ hvis)
            · exact hne (List.mem_cons_of_mem _ hvis)
          · intro r hr
            rw [List.map_cons] at hr
            rcases List.mem_cons.mp hr with he | hmem
            · exact Or.inl he
            · rcases hq _ hmem with he | hne
              · exact Or.inr (he ▸ h4)
              · exact Or.inr (fun hc => hne (List.mem_cons_of_mem _ hc))

theorem find_move_chain_fuel_from_not_locked : ∀ (fuel : Nat) (pid : String)
    (cur : Nat) (avail : List Nat) (sched : Schedule) (used : List Nat)
    (emap : EntryMap) (gav : AppointmentEntry → List Nat) (depth md : Nat)
    (vis : List String) (locked : List Nat) (chain : List Move),
    find_move_chain_fuel fuel pid cur avail sched used emap gav depth md vis
      locked = some chain →
    ∀ m ∈ chain, m.from_slot ∉ locked := by
  intro fuel
  induction fuel with
  | zero =>
    intro pid cur avail sched used emap gav depth md vis locked chain h
    simp [find_move_chain_fuel] at h
  | succ fuel ih =>
    intro pid cur avail sched used emap gav depth md vis locked chain h
    simp only [find_move_chain_fuel] at h
    split at h
    · simp at h
    · split at h
      · simp at h
      · rename_i hcur
        split at h
        · rename_i slot hfind
          have hc : [(⟨pid, cur, slot⟩ : Move)] = chain := Option.some.inj h
          rw [← hc]
          intro m hm
          rw [List.mem_singleton] at hm
          subst hm
          exact hcur
        · obtain ⟨t, q, ba, be, sc, h1, h2, h3, h4, h5, h6, h7⟩ :=
            chainLoopF_some _ _ _ _ _ _ _ _ _ _ h
          have hsub := ih _ _ _ _ _ _ _ _ _ _ _ _ h6
          subst h7
          intro m hm
          rcases List.mem_cons.mp hm with he | hmem
          · subst he
            exact hcur
          · exact hsub m hmem

theorem find_move_chain_fuel_to_ok : ∀ (fuel : Nat) (pid : String)
    (cur : Nat) (avail : List Nat) (sched : Schedule) (used : List Nat)
    (emap : EntryMap) (gav : AppointmentEntry → List Nat) (depth md : Nat)
    (vis : List String) (locked : List Nat) (chain : List Move),
    find_move_chain_fuel fuel pid cur avail sched used emap gav depth md vis
      locked = some chain →
    ∀ m ∈ chain, m.to_slot ∉ used ∨ ∃ a, mapGet sched m.to_slot = some a := by
  intro fuel
  induction fuel with
  | zero =>
    intro pid cur avail sched used emap gav depth md vis locked chain h
    simp [find_move_chain_fuel] at h
  | succ fuel ih =>
    intro pid cur avail sched used emap gav depth md vis locked chain h
    simp only [find_move_chain_fuel] at h
    split at h
    · simp at h
    · split at h
      · simp at h
      · split at h
        · rename_i slot hfind
          have hc : [(⟨pid, cur, slot⟩ : Move)] = chain := Option.some.inj h
          rw [← hc]
          intro m hm
          rw [List.mem_singleton] at hm
          subst hm
          have hp := List.find?_some hfind
          simp only [decide_eq_true_eq] at hp
          exact Or.inl hp.2
        · obtain ⟨t, q, ba, be, sc, h1, h2, h3, h4, h5, h6, h7⟩ :=
            chainLoopF_some _ _ _ _ _ _ _ _ _ _ h
          have hsub := ih _ _ _ _ _ _ _ _ _ _ _ _ h6
          subst h7
          intro m hm
          rcases List.mem_cons.mp hm with he | hmem
          · subst he
            exact Or.inr ⟨ba, h2⟩
          · exact hsub m hmem

theorem find_move_chain_fuel_chainOK : ∀ (fuel : Nat) (pid : String)
    (cur : Nat) (avail : List Nat) (sched : Schedule) (used : List Nat)
    (emap : EntryMap) (gav : AppointmentEntry → List Nat) (depth md : Nat)
    (vis : List String) (locked : List Nat) (chain : List Move)
    (appt : ScheduledAppointment),
    mapGet sched cur = some appt → appt.player_id = pid →
    find_move_chain_fuel fuel pid cur avail sched used emap gav depth md vis
      locked = some chain →
    ChainOK sched used chain ∧
      ∃ m rest, chain = m :: rest ∧ Move.player_id m = pid ∧
        Move.from_slot m = cur := by
  intro fuel
  induction fuel with
  | zero =>
    intro pid cur avail sched used emap gav depth md vis locked chain appt
      hget hpid h
    simp [find_move_chain_fuel] at h
  | succ fuel ih =>
    intro pid cur avail sched used emap gav depth md vis locked chain appt
      hget hpid h
    simp only [find_move_chain_fuel] at h
    split at h
    · simp at h
    · split at h
      · simp at h
      · split at h
        · rename_i slot hfind
          have hc : [(⟨pid, cur, slot⟩ : Move)] = chain := Option.some.inj h
          rw [← hc]
          have hp := List.find?_some hfind
          simp only [decide_eq_true_eq] at hp
          exact ⟨ChainOK.single _ appt hget hpid hp.2 hp.1,
            ⟨pid, cur, slot⟩, [], rfl, rfl, rfl⟩
        · obtain ⟨t, q, ba, be, sc, h1, h2, h3, h4, h5, h6, h7⟩ :=
            chainLoopF_some _ _ _ _ _ _ _ _ _ _ h
          have hsub := ih _ _ _ _ _ _ _ _ _ _ _ _ _ h2 rfl h6
          subst h7
          obtain ⟨hok, m', rest', hsc, hm'pid, hm'from⟩ := hsub
          have htne : t ≠ cur := mem_slot_priorities_ne _ _ _ _ _ h1
          subst hsc
          refine ⟨?_, ⟨pid, cur, t⟩, m' :: rest', rfl, rfl, rfl⟩
          exact ChainOK.cons _ m' rest' appt hget hpid hm'from.symm htne hok

theorem chainOK_lastTo_not_used (sched : Schedule) (used : List Nat)
    (chain : List Move) (h : ChainOK sched used chain) :
    ∃ lt, chainLastTo chain = some lt ∧ lt ∉ used := by
  induction h with
  | single m appt hget hpid hfree hne =>
    exact ⟨m.to_slot, rfl, hfree⟩
  | cons m m' rest appt hget hpid hlink hne htail ih =>
    obtain ⟨lt, h1, h2⟩ := ih
    refine ⟨lt, ?_, h2⟩
    rw [chainLastTo] at h1 ⊢
    rw [List.getLast?_cons_cons]
    exact h1

theorem chainOK_from_get (sched : Schedule) (used : List Nat)
    (chain : List Move) (h : ChainOK sched used chain) :
    ∀ m ∈ chain, ∃ a, mapGet sched m.from_slot = some a ∧
      a.player_id = m.player_id := by
  induction h with
  | single m appt hget hpid hfree hne =>
    intro m' hm'
    rw [List.mem_singleton] at hm'
    exact hm' ▸ ⟨appt, hget, hpid⟩
  | cons m m' rest appt hget hpid hlink hne htail ih =>
    intro n hn
    rcases List.mem_cons.mp hn with he | hmem
    · exact he ▸ ⟨appt, hget, hpid⟩
    · exact ih n hmem

/-! ### Chain-application lemmas -/

theorem apply_move_chain_nil (sched : Schedule) (used : List Nat) :
    apply_move_chain [] sched used = ⟨sched, used, []⟩ := rfl

theorem apply_move_chain_cons (mv : Move) (moves : List Move)
    (sched : Schedule) (used : List Nat) :
    apply_move_chain (mv :: moves) sched used =
      applyOneMove mv (apply_move_chain moves sched used) := by
  unfold apply_move_chain
  rw [List.reverse_cons, List.foldl_append]
  rfl

theorem mapRemove_of_not_mem (m : Schedule) (k : Nat) (h : k ∉ keysOf m) :
    mapRemove m k = m := by
  unfold mapRemove
  apply List.filter_eq_self.mpr
  intro p hp
  have hne : p.1 ≠ k := fun he => h (he ▸ List.mem_map.mpr ⟨p, hp, rfl⟩)
  simp [bne_iff_ne, hne]

theorem mem_mapRemove_of_mem (m : Schedule) (k : Nat)
    (p : Nat × ScheduledAppointment) (hp : p ∈ m) (hne : p.1 ≠ k) :
    p ∈ mapRemove m k :=
  List.mem_filter.mpr ⟨hp, by simp [bne_iff_ne, hne]⟩

theorem pid_not_mem_mapRemove (m : Schedule) (k : Nat)
    (v : ScheduledAppointment) (hnd : (pidsOf m).Nodup)
    (h : mapGet m k = some v) : v.player_id ∉ pidsOf (mapRemove m k) := by
  induction m with
  | nil => simp [mapGet] at h
  | cons p m ih =>
    rw [mapGet_cons] at h
    simp only [pidsOf, List.map_cons, List.nodup_cons] at hnd
    by_cases hp : p.1 = k
    · rw [if_pos hp] at h
      have hv : p.2 = v := Option.some.inj h
      have h1 : mapRemove (p :: m) k = mapRemove m k := by
        simp [mapRemove, List.filter_cons, hp]
      rw [h1]
      intro hmem
      have hmm := (pidsOf_mapRemove_sublist m k).subset hmem
      apply hnd.1
      rw [hv]
      exact hmm
    · have h1 : mapRemove (p :: m) k = p :: mapRemove m k := by
        simp [mapRemove, List.filter_cons, bne_iff_ne, hp]
      rw [if_neg hp] at h
      rw [h1]
      intro hmem
      rcases List.mem_cons.mp hmem with he | hmem'
      · apply hnd.1
        have he2 : v.player_id = p.2.player_id := he
        rw [← he2]
        exact mem_pidsOf_of_mapGet m k v h
      · exact ih hnd.2 h hmem'

theorem pids_insert_remove_iff (m : Schedule) (f t : Nat)
    (appt appt' : ScheduledAppointment) (hk : (keysOf m).Nodup)
    (hget : mapGet m f = some appt) (htk : t ∉ keysOf (mapRemove m f))
    (hpid : appt'.player_id = appt.player_id) :
    ∀ p, p ∈ pidsOf (mapInsert (mapRemove m f) t appt') ↔ p ∈ pidsOf m := by
  intro p
  rw [pidsOf_mapInsert, mapRemove_of_not_mem _ _ htk]
  constructor
  · intro hp
    rcases List.mem_cons.mp hp with he | hmem
    · rw [he, hpid]
      exact mem_pidsOf_of_mapGet m f appt hget
    · exact (pidsOf_mapRemove_sublist m f).subset hmem
  · intro hp
    rcases List.mem_map.mp hp with ⟨q, hq, hqp⟩
    by_cases hqf : q.1 = f
    · have : mapGet m q.1 = some q.2 := mapGet_of_mem m q.1 q.2 hk hq
      rw [hqf, hget] at this
      have hq2 : appt = q.2 := Option.some.inj this
      rw [← hqp, ← hq2, ← hpid]
      exact List.mem_cons_self _ _
    · refine List.mem_cons_of_mem _ ?_
      exact List.mem_map.mpr ⟨q, mem_mapRemove_of_mem m f q hq hqf, hqp⟩

theorem applyOneMove_keys_nodup (mv : Move) (st : ApplyState)
    (h : (keysOf st.schedule).Nodup) :
    (keysOf (applyOneMove mv st).schedule).Nodup := by
  unfold applyOneMove
  split
  · exact h
  · split
    · exact keysOf_nodup_mapInsert _ _ _
        (h.sublist (keysOf_mapRemove_sublist _ _))
    · exact keysOf_nodup_mapInsert _ _ _
        (h.sublist (keysOf_mapRemove_sublist _ _))

theorem applyOneMove_pids_nodup (mv : Move) (st : ApplyState)
    (h : (pidsOf st.schedule).Nodup) :
    (pidsOf (applyOneMove mv st).schedule).Nodup := by
  unfold applyOneMove
  split
  · exact h
  · rename_i appt hget
    have hrem := h.sublist (pidsOf_mapRemove_sublist st.schedule mv.from_slot)
    have hnotin := pid_not_mem_mapRemove st.schedule mv.from_slot appt h hget
    split
    · refine pidsOf_nodup_mapInsert _ _ _ hrem ?_
      intro hc
      exact hnotin ((pidsOf_mapRemove_sublist _ _).subset hc)
    · refine pidsOf_nodup_mapInsert _ _ _ hrem ?_
      intro hc
      exact hnotin ((pidsOf_mapRemove_sublist _ _).subset hc)

theorem applyOneMove_pids_subset (mv : Move) (st : ApplyState) :
    ∀ p ∈ pidsOf (applyOneMove mv st).schedule, p ∈ pidsOf st.schedule := by
  unfold applyOneMove
  split
  · exact fun p hp => hp
  · rename_i appt hget
    split
    · intro p hp
      rcases List.mem_cons.mp hp with he | hmem
      · rw [he]
        exact mem_pidsOf_of_mapGet st.schedule mv.from_slot appt hget
      · exact (pidsOf_mapRemove_sublist _ _).subset
          ((pidsOf_mapRemove_sublist _ _).subset hmem)
    · intro p hp
      rcases List.mem_cons.mp hp with he | hmem
      · rw [he]
        exact mem_pidsOf_of_mapGet st.schedule mv.from_slot appt hget
      · exact (pidsOf_mapRemove_sublist _ _).subset
          ((pidsOf_mapRemove_sublist _ _).subset hmem)

theorem applyOneMove_slot_agree (mv : Move) (st : ApplyState)
    (h : ∀ k a, mapGet st.schedule k = some a → a.slot = k) :
    ∀ k a, mapGet (applyOneMove mv st).schedule k = some a → a.slot = k := by
  unfold applyOneMove
  split
  · exact h
  · rename_i appt hget
    split
    · intro k a ha
      rw [mapGet_mapInsert] at ha
      by_cases hk : mv.to_slot = k
      · rw [if_pos hk] at ha
        have := Option.some.inj ha
        rw [← this, ← hk]
      · rw [if_neg hk] at ha
        rw [mapGet_mapRemove] at ha
        by_cases hf : mv.from_slot = k
        · rw [if_pos hf] at ha
          exact absurd ha (by simp)
        · rw [if_neg hf] at ha
          exact h k a ha
    · intro k a ha
      rw [mapGet_mapInsert] at ha
      by_cases hk : mv.from_slot = k
      · rw [if_pos hk] at ha
        have hv := Option.some.inj ha
        rw [← hv]
        rw [← hk]
        exact h mv.from_slot appt hget
      · rw [if_neg hk] at ha
        rw [mapGet_mapRemove] at ha
        rw [if_neg hk] at ha
        exact h k a ha

theorem applyOneMove_keys_used (mv : Move) (st : ApplyState)
    (h : ∀ k ∈ keysOf st.schedule, k ∈ st.used) :
    ∀ k ∈ keysOf (applyOneMove mv st).schedule, k ∈ (applyOneMove mv st).used := by
  unfold applyOneMove
  split
  · exact h
  · rename_i appt hget
    split
    · intro k hk
      rw [keysOf_mapInsert] at hk
      rcases List.mem_cons.mp hk with he | hmem
      · exact he ▸ List.mem_cons_self _ _
      · have hne_to : k ≠ mv.to_slot := by
          intro he
          exact not_mem_keysOf_mapRemove _ _ (he ▸ hmem)
        have hmem' := (keysOf_mapRemove_sublist _ _).subset hmem
        have hne_from : k ≠ mv.from_slot := by
          intro he
          exact not_mem_keysOf_mapRemove _ _ (he ▸ hmem')
        have hk' := (keysOf_mapRemove_sublist _ _).subset hmem'
        refine List.mem_cons_of_mem _ ?_
        exact List.mem_filter.mpr ⟨h k hk', by simp [bne_iff_ne, hne_from]⟩
    · intro k hk
      rw [keysOf_mapInsert] at hk
      rcases List.mem_cons.mp hk with he | hmem
      · exact he ▸ h mv.from_slot (mem_keysOf_of_mapGet _ _ _ hget)
      · have hmem' := (keysOf_mapRemove_sublist _ _).subset hmem
        exact h k ((keysOf_mapRemove_sublist _ _).subset hmem')

theorem applyOneMove_P_used (mv : Move) (st : ApplyState) (P : List Nat)
    (hf : mv.from_slot ∉ P)
    (h : ∀ s ∈ P, s ∈ st.used) :
    ∀ s ∈ P, s ∈ (applyOneMove mv st).used := by
  unfold applyOneMove
  split
  · exact h
  · rename_i appt hget
    split
    · intro s hs
      have hne : s ≠ mv.from_slot := fun he => hf (he ▸ hs)
      refine List.mem_cons_of_mem _ ?_
      exact List.mem_filter.mpr ⟨h s hs, by simp [bne_iff_ne, hne]⟩
    · exact h

theorem applyOneMove_keys_not_P (mv : Move) (st : ApplyState) (P : List Nat)
    (hf : mv.from_slot ∉ P) (ht : mv.to_slot ∉ P)
    (h : ∀ k ∈ keysOf st.schedule, k ∉ P) :
    ∀ k ∈ keysOf (applyOneMove mv st).schedule, k ∉ P := by
  unfold applyOneMove
  split
  · exact h
  · rename_i appt hget
    split
    · intro k hk
      rw [keysOf_mapInsert] at hk
      rcases List.mem_cons.mp hk with he | hmem
      · exact he ▸ ht
      · exact h k ((keysOf_mapRemove_sublist _ _).subset
          ((keysOf_mapRemove_sublist _ _).subset hmem))
    · intro k hk
      rw [keysOf_mapInsert] at hk
      rcases List.mem_cons.mp hk with he | hmem
      · exact he ▸ hf
      · exact h k ((keysOf_mapRemove_sublist _ _).subset
          ((keysOf_mapRemove_sublist _ _).subset hmem))

theorem chainLastTo_cons_cons (m m' : Move) (rest : List Move) :
    chainLastTo (m :: m' :: rest) = chainLastTo (m' :: rest) := by
  rw [chainLastTo, chainLastTo, List.getLast?_cons_cons]

theorem apply_move_chain_keys_nodup (chain : List Move) (sched : Schedule)
    (used : List Nat) (h : (keysOf sched).Nodup) :
    (keysOf (apply_move_chain chain sched used).schedule).Nodup := by
  induction chain with
  | nil => exact h
  | cons mv rest ih =>
    rw [apply_move_chain_cons]
    exact applyOneMove_keys_nodup _ _ ih

theorem apply_move_chain_pids_nodup (chain : List Move) (sched : Schedule)
    (used : List Nat) (h : (pidsOf sched).Nodup) :
    (pidsOf (apply_move_chain chain sched used).schedule).Nodup := by
  induction chain with
  | nil => exact h
  | cons mv rest ih =>
    rw [apply_move_chain_cons]
    exact applyOneMove_pids_nodup _ _ ih

theorem apply_move_chain_pids_subset (chain : List Move) (sched : Schedule)
    (used : List Nat) :
    ∀ p ∈ pidsOf (apply_move_chain chain sched used).schedule,
      p ∈ pidsOf sched := by
  induction chain with
  | nil => exact fun p hp => hp
  | cons mv rest ih =>
    rw [apply_move_chain_cons]
    exact fun p hp => ih p (applyOneMove_pids_subset _ _ p hp)

theorem apply_move_chain_slot_agree (chain : List Move) (sched : Schedule)
    (used : List Nat)
    (h : ∀ k a, mapGet sched k = some a → a.slot = k) :
    ∀ k a, mapGet (apply_move_chain chain sched used).schedule k = some a →
      a.slot = k := by
  induction chain with
  | nil => exact h
  | cons mv rest ih =>
    rw [apply_move_chain_cons]
    exact applyOneMove_slot_agree _ _ ih

theorem apply_move_chain_keys_used (chain : List Move) (sched : Schedule)
    (used : List Nat) (h : ∀ k ∈ keysOf sched, k ∈ used) :
    ∀ k ∈ keysOf (apply_move_chain chain sched used).schedule,
      k ∈ (apply_move_chain chain sched used).used := by
  induction chain with
  | nil => exact h
  | cons mv rest ih =>
    rw [apply_move_chain_cons]
    exact applyOneMove_keys_used _ _ ih

theorem apply_move_chain_P_used (chain : List Move) (sched : Schedule)
    (used : List Nat) (P : List Nat)
    (hf : ∀ m ∈ chain, Move.from_slot m ∉ P)
    (h : ∀ s ∈ P, s ∈ used) :
    ∀ s ∈ P, s ∈ (apply_move_chain chain sched used).used := by
  induction chain with
  | nil => exact h
  | cons mv rest ih =>
    rw [apply_move_chain_cons]
    refine applyOneMove_P_used _ _ _ (hf mv (List.mem_cons_self _ _)) ?_
    exact ih (fun m hm => hf m (List.mem_cons_of_mem _ hm))

theorem apply_move_chain_keys_not_P (chain : List Move) (sched : Schedule)
    (used : List Nat) (P : List Nat)
    (hf : ∀ m ∈ chain, Move.from_slot m ∉ P)
    (ht : ∀ m ∈ chain, Move.to_slot m ∉ P)
    (h : ∀ k ∈ keysOf sched, k ∉ P) :
    ∀ k ∈ keysOf (apply_move_chain chain sched used).schedule, k ∉ P := by
  induction chain with
  | nil => exact h
  | cons mv rest ih =>
    rw [apply_move_chain_cons]
    refine applyOneMove_keys_not_P _ _ _ (hf mv (List.mem_cons_self _ _))
      (ht mv (List.mem_cons_self _ _)) ?_
    exact ih (fun m hm => hf m (List.mem_cons_of_mem _ hm))
      (fun m hm => ht m (List.mem_cons_of_mem _ hm))

theorem apply_chain_master (sched : Schedule) (used : List Nat)
    (chain : List Move) (hok : ChainOK sched used chain)
    (hk : (keysOf sched).Nodup)
    (hku : ∀ k ∈ keysOf sched, k ∈ used) :
    (chain.map Move.player_id).Nodup →
    ∀ m0, chain.head? = some m0 →
      (∀ p, p ∈ pidsOf (apply_move_chain chain sched used).schedule ↔
        p ∈ pidsOf sched) ∧
      mapGet (apply_move_chain chain sched used).schedule m0.from_slot =
        none ∧
      (∀ s, s ∈ (apply_move_chain chain sched used).used ↔
        ((s ∈ used ∧ s ≠ m0.from_slot) ∨ chainLastTo chain = some s)) ∧
      (∀ k, k ∉ chain.map Move.from_slot → chainLastTo chain ≠ some k →
        mapGet (apply_move_chain chain sched used).schedule k =
          mapGet sched k) ∧
      (∀ k ∈ keysOf (apply_move_chain chain sched used).schedule,
        k ∈ keysOf sched ∨ chainLastTo chain = some k) := by
  induction hok with
  | single m appt hget hpid hfree hne =>
    intro hnd m0 hm0
    have hm0m : m0 = m := (Option.some.inj hm0).symm
    subst hm0m
    have htk : m0.to_slot ∉ keysOf (mapRemove sched m0.from_slot) := by
      intro hc
      exact hfree (hku _ ((keysOf_mapRemove_sublist _ _).subset hc))
    have hres : apply_move_chain [m0] sched used =
        ⟨mapInsert (mapRemove sched m0.from_slot) m0.to_slot
          { appt with slot := m0.to_slot },
         m0.to_slot :: used.filter (fun s => s != m0.from_slot), []⟩ := by
      rw [apply_move_chain_cons, apply_move_chain_nil]
      unfold applyOneMove
      rw [show (⟨sched, used, []⟩ : ApplyState).schedule = sched from rfl]
      rw [hget]
      simp [hpid]
    rw [hres]
    refine ⟨?_, ?_, ?_, ?_, ?_⟩
    · exact pids_insert_remove_iff sched m0.from_slot m0.to_slot appt _ hk
        hget htk rfl
    · rw [mapGet_mapInsert, if_neg hne, mapGet_mapRemove, if_pos rfl]
    · intro s
      have hlast : chainLastTo [m0] = some m0.to_slot := rfl
      rw [hlast]
      constructor
      · intro hs
        rcases List.mem_cons.mp hs with he | hmem
        · exact Or.inr (by rw [he])
        · have := List.mem_filter.mp hmem
          refine Or.inl ⟨this.1, ?_⟩
          have := this.2
          simpa [bne_iff_ne] using this
      · rintro (⟨hs, hsne⟩ | hs)
        · refine List.mem_cons_of_mem _ ?_
          exact List.mem_filter.mpr ⟨hs, by simp [bne_iff_ne, hsne]⟩
        · have : m0.to_slot = s := Option.some.inj hs
          rw [← this]
          exact List.mem_cons_self _ _
    · intro k hkf hkl
      have hm0mem : m0.from_slot ∈ List.map Move.from_slot [m0] :=
        List.mem_map.mpr ⟨m0, List.mem_cons_self _ _, rfl⟩
      have hkf' : k ≠ m0.from_slot := fun he => hkf (he ▸ hm0mem)
      have hkl' : k ≠ m0.to_slot := by
        intro he
        apply hkl
        rw [he]
        simp [chainLastTo]
      rw [mapGet_mapInsert, if_neg (fun he => hkl' he.symm),
        mapGet_mapRemove, if_neg (fun he => hkf' he.symm)]
    · intro k hkmem
      rw [keysOf_mapInsert] at hkmem
      rcases List.mem_cons.mp hkmem with he | hmem
      · refine Or.inr ?_
        rw [he]
        simp [chainLastTo]
      · exact Or.inl ((keysOf_mapRemove_sublist _ _).subset
          ((keysOf_mapRemove_sublist _ _).subset hmem))
  | cons m m' rest appt hget hpid hlink hne htail ih =>
    intro hnd m0 hm0
    have hm0m : m0 = m := (Option.some.inj hm0).symm
    subst hm0m
    have hndsub : ((m' :: rest).map Move.player_id).Nodup := by
      rw [List.map_cons] at hnd
      exact (List.nodup_cons.mp hnd).2
    have hpid_notin : Move.player_id m0 ∉ (m' :: rest).map Move.player_id := by
      rw [List.map_cons] at hnd
      exact (List.nodup_cons.mp hnd).1
    obtain ⟨ihA, ihB, ihC, ihD, ihE⟩ := ih hndsub m' rfl
    have hfg := chainOK_from_get sched used _ htail
    obtain ⟨lt, hlt, hltnu⟩ := chainOK_lastTo_not_used sched used _ htail
    have hlastcc := chainLastTo_cons_cons m0 m' rest
    have hfnotin : Move.from_slot m0 ∉ (m' :: rest).map Move.from_slot := by
      intro hc
      rcases List.mem_map.mp hc with ⟨n, hn, hnf⟩
      obtain ⟨a, hga, hpa⟩ := hfg n hn
      rw [hnf, hget] at hga
      have han : appt = a := Option.some.inj hga
      apply hpid_notin
      refine List.mem_map.mpr ⟨n, hn, ?_⟩
      rw [← hpa, ← han, hpid]
    have hfused : Move.from_slot m0 ∈ used :=
      hku _ (mem_keysOf_of_mapGet _ _ _ hget)
    have hfne_lt : Move.from_slot m0 ≠ lt := fun he => hltnu (he ▸ hfused)
    have hlast_ne_f : chainLastTo (m' :: rest) ≠ some (Move.from_slot m0) := by
      rw [hlt]
      intro hc
      exact hfne_lt (Option.some.inj hc).symm
    have hgf : mapGet (apply_move_chain (m' :: rest) sched used).schedule
        (Move.from_slot m0) = some appt := by
      rw [ihD _ hfnotin hlast_ne_f]
      exact hget
    have hm'get := hfg m' (List.mem_cons_self _ _)
    obtain ⟨am', hgam', hpam'⟩ := hm'get
    have hm'keys : Move.from_slot m' ∈ keysOf sched :=
      mem_keysOf_of_mapGet _ _ _ hgam'
    have hm'used : Move.from_slot m' ∈ used := hku _ hm'keys
    have hm'ne_f : Move.from_slot m' ≠ Move.from_slot m0 := by
      intro he
      exact hfnotin (he ▸ List.mem_map.mpr ⟨m', List.mem_cons_self _ _, rfl⟩)
    have hres : apply_move_chain (m0 :: m' :: rest) sched used =
        ⟨mapInsert
          (mapRemove (apply_move_chain (m' :: rest) sched used).schedule
            (Move.from_slot m0))
          (Move.to_slot m0) { appt with slot := Move.to_slot m0 },
         Move.to_slot m0 ::
          (apply_move_chain (m' :: rest) sched used).used.filter
            (fun s => s != Move.from_slot m0),
         (apply_move_chain (m' :: rest) sched used).diags⟩ := by
      rw [apply_move_chain_cons]
      unfold applyOneMove
      rw [hgf]
      simp [hpid]
    have htk : Move.to_slot m0 ∉
        keysOf (mapRemove
          (apply_move_chain (m' :: rest) sched used).schedule
          (Move.from_slot m0)) := by
      intro hc
      have hc' := (keysOf_mapRemove_sublist _ _).subset hc
      rw [hlink] at hc'
      exact (mapGet_eq_none_iff _ _).mp ihB hc'
    rw [hres]
    refine ⟨?_, ?_, ?_, ?_, ?_⟩
    · intro p
      rw [pids_insert_remove_iff
        (apply_move_chain (m' :: rest) sched used).schedule
        (Move.from_slot m0) (Move.to_slot m0) appt
        { appt with slot := Move.to_slot m0 }
        (apply_move_chain_keys_nodup _ _ _ hk) hgf htk rfl p]
      exact ihA p
    · rw [mapGet_mapInsert, if_neg hne, mapGet_mapRemove, if_pos rfl]
    · intro s
      rw [hlastcc, hlt]
      constructor
      · intro hs
        rcases List.mem_cons.mp hs with he | hmem
        · rw [he, hlink]
          exact Or.inl ⟨hm'used, hm'ne_f⟩
        · have hmf := List.mem_filter.mp hmem
          have hsne : s ≠ Move.from_slot m0 := by
            have := hmf.2
            simpa [bne_iff_ne] using this
          rcases (ihC s).mp hmf.1 with ⟨hsu, _⟩ | hslt
          · exact Or.inl ⟨hsu, hsne⟩
          · exact Or.inr (hlt ▸ hslt)
      · rintro (⟨hs, hsne⟩ | hs)
        · by_cases hsm' : s = Move.from_slot m'
          · rw [hsm', ← hlink]
            exact List.mem_cons_self _ _
          · refine List.mem_cons_of_mem _ ?_
            refine List.mem_filter.mpr ⟨?_, by simp [bne_iff_ne, hsne]⟩
            exact (ihC s).mpr (Or.inl ⟨hs, hsm'⟩)
        · have hslt : lt = s := Option.some.inj hs
          refine List.mem_cons_of_mem _ ?_
          have hsmem : s ∈ (apply_move_chain (m' :: rest) sched used).used :=
            (ihC s).mpr (Or.inr (by rw [hlt, hslt]))
          refine List.mem_filter.mpr ⟨hsmem, ?_⟩
          have : s ≠ Move.from_slot m0 := by
            rw [← hslt]
            exact fun he => hfne_lt he.symm
          simp [bne_iff_ne, this]
    · intro k hkf hkl
      rw [hlastcc] at hkl
      have hm0mem : Move.from_slot m0 ∈
          (m0 :: m' :: rest).map Move.from_slot :=
        List.mem_map.mpr ⟨m0, List.mem_cons_self _ _, rfl⟩
      have hkf0 : k ≠ Move.from_slot m0 := fun he => hkf (he ▸ hm0mem)
      have hkfsub : k ∉ (m' :: rest).map Move.from_slot := by
        intro hc
        rcases List.mem_map.mp hc with ⟨n, hn, hnf⟩
        exact hkf (List.mem_map.mpr ⟨n, List.mem_cons_of_mem _ hn, hnf⟩)
      have hkt : k ≠ Move.to_slot m0 := by
        intro he
        apply hkfsub
        rw [he, hlink]
        exact List.mem_map.mpr ⟨m', List.mem_cons_self _ _, rfl⟩
      rw [mapGet_mapInsert, if_neg (fun he => hkt he.symm),
        mapGet_mapRemove, if_neg (fun he => hkf0 he.symm)]
      exact ihD k hkfsub hkl
    · intro k hkmem
      rw [hlastcc]
      rw [keysOf_mapInsert] at hkmem
      rcases List.mem_cons.mp hkmem with he | hmem
      · rw [he, hlink]
        exact Or.inl hm'keys
      · have := (keysOf_mapRemove_sublist _ _).subset
          ((keysOf_mapRemove_sublist _ _).subset hmem)
        exact ihE k this

theorem applyOneMove_diags_mismatch (mv : Move) (st : ApplyState)
    (appt : ScheduledAppointment)
    (hget : mapGet st.schedule mv.from_slot = some appt)
    (hne : appt.player_id ≠ mv.player_id) :
    applyOneMove mv st =
      ⟨mapInsert (mapRemove st.schedule mv.from_slot) mv.from_slot appt,
        st.used,
        st.diags ++
          ["Warning: Attempted to move wrong player from slot " ++
            toString mv.from_slot]⟩ := by
  unfold applyOneMove
  rw [hget]
  simp [hne]

/-! ### Generic scheduler loop lemmas -/

theorem steal_update_inv (P : List Nat) (st : SchedState)
    (entry : AppointmentEntry) (score : Nat) (rslot : Nat)
    (bappt : ScheduledAppointment) (chain : List Move)
    (hinv : SInv P st)
    (hget : mapGet st.schedule rslot = some bappt)
    (hok : ChainOK st.schedule st.used chain)
    (hnd : (chain.map Move.player_id).Nodup)
    (hhead : ∃ m0 rest, chain = m0 :: rest ∧ Move.player_id m0 =
      bappt.player_id ∧ Move.from_slot m0 = rslot)
    (hfresh : entry.player_id ∉ pidsOf st.schedule) :
    SInv P
      ⟨mapInsert (apply_move_chain chain st.schedule st.used).schedule rslot
        (mkAppt entry rslot score),
       rslot :: (apply_move_chain chain st.schedule st.used).used,
       st.unassigned⟩ ∧
    ∀ p,
      p ∈ pidsOf (mapInsert
        (apply_move_chain chain st.schedule st.used).schedule rslot
        (mkAppt entry rslot score)) ↔
      (p ∈ pidsOf st.schedule ∨ p = entry.player_id) := by
  obtain ⟨m0, crest, hchain, hm0pid, hm0from⟩ := hhead
  have hmaster := apply_chain_master st.schedule st.used chain hok
    hinv.keys_nodup hinv.keys_used hnd m0 (by rw [hchain]; rfl)
  obtain ⟨hA, hB, hC, hD, hE⟩ := hmaster
  rw [hm0from] at hB hC
  have happlied_keys_nodup := apply_move_chain_keys_nodup chain st.schedule
    st.used hinv.keys_nodup
  have happlied_pids_nodup := apply_move_chain_pids_nodup chain st.schedule
    st.used hinv.pids_nodup
  have happlied_keys_used := apply_move_chain_keys_used chain st.schedule
    st.used hinv.keys_used
  have happlied_agree := apply_move_chain_slot_agree chain st.schedule st.used
    hinv.slot_agree
  have hrslot_keys : rslot ∈ keysOf st.schedule :=
    mem_keysOf_of_mapGet _ _ _ hget
  have hrslot_notP : rslot ∉ P := hinv.keys_pre rslot hrslot_keys
  have hrem_applied :
      mapRemove (apply_move_chain chain st.schedule st.used).schedule rslot =
        (apply_move_chain chain st.schedule st.used).schedule :=
    mapRemove_of_not_mem _ _ ((mapGet_eq_none_iff _ _).mp hB)
  obtain ⟨lt, hlt, hltnu⟩ := chainOK_lastTo_not_used st.schedule st.used
    chain hok
  constructor
  · refine ⟨?_, ?_, ?_, ?_, ?_, ?_⟩
    · exact keysOf_nodup_mapInsert _ _ _ happlied_keys_nodup
    · refine pidsOf_nodup_mapInsert _ _ _ happlied_pids_nodup ?_
      intro hc
      apply hfresh
      exact (hA _).mp ((pidsOf_mapRemove_sublist _ _).subset hc)
    · intro k hk
      rw [keysOf_mapInsert] at hk
      rcases List.mem_cons.mp hk with he | hmem
      · exact he ▸ List.mem_cons_self _ _
      · refine List.mem_cons_of_mem _ ?_
        exact happlied_keys_used k
          ((keysOf_mapRemove_sublist _ _).subset hmem)
    · intro s hs
      have hs_used := hinv.pre_used s hs
      have hs_ne : s ≠ rslot := fun he => hrslot_notP (he ▸ hs)
      refine List.mem_cons_of_mem _ ?_
      exact (hC s).mpr (Or.inl ⟨hs_used, hs_ne⟩)
    · intro k hk
      rw [keysOf_mapInsert] at hk
      rcases List.mem_cons.mp hk with he | hmem
      · exact he ▸ hrslot_notP
      · have hk' := (keysOf_mapRemove_sublist _ _).subset hmem
        rcases hE k hk' with hks | hklt
        · exact hinv.keys_pre k hks
        · rw [hlt] at hklt
          have : lt = k := Option.some.inj hklt
          intro hc
          exact hltnu (this ▸ hinv.pre_used k hc)
    · intro k a ha
      rw [mapGet_mapInsert] at ha
      by_cases hk : rslot = k
      · rw [if_pos hk] at ha
        have := Option.some.inj ha
        rw [← this, ← hk]
        rfl
      · rw [if_neg hk] at ha
        exact happlied_agree k a ha
  · intro p
    rw [pidsOf_mapInsert, hrem_applied]
    constructor
    · intro hp
      rcases List.mem_cons.mp hp with he | hmem
      · exact Or.inr he
      · exact Or.inl ((hA p).mp hmem)
    · rintro (hp | hp)
      · exact List.mem_cons_of_mem _ ((hA p).mpr hp)
      · exact hp ▸ List.mem_cons_self _ _

theorem stealLoop_some (entry : AppointmentEntry) (score : Nat)
    (gav : AppointmentEntry → List Nat) (emap : EntryMap) (locked : List Nat)
    (P : List Nat) :
    ∀ (blocking : List (Nat × String × Nat)) (st st' : SchedState),
    SInv P st →
    entry.player_id ∉ pidsOf st.schedule →
    stealLoop entry score gav emap locked blocking st = some st' →
    SInv P st' ∧
    (∀ p, p ∈ pidsOf st'.schedule ↔
      (p ∈ pidsOf st.schedule ∨ p = entry.player_id)) ∧
    st'.unassigned = st.unassigned := by
  intro blocking
  induction blocking with
  | nil =>
    intro st st' _ _ h
    simp [stealLoop] at h
  | cons b rest ih =>
    intro st st' hinv hfresh h
    obtain ⟨rslot, bpid, bscore⟩ := b
    simp only [stealLoop] at h
    split at h
    · exact ih st st' hinv hfresh h
    · rename_i bappt hget
      split at h
      · exact ih st st' hinv hfresh h
      · rename_i bentry hemap
        split at h
        · exact ih st st' hinv hfresh h
        · rename_i chain hchain
          rw [find_move_chain] at hchain
          have hprod := find_move_chain_fuel_chainOK _ _ _ _ _ _ _ _ _ _ _ _
            _ _ hget rfl hchain
          have hpids := find_move_chain_fuel_pids _ _ _ _ _ _ _ _ _ _ _ _ _
            (List.mem_cons_self _ _) hchain
          obtain ⟨hok, hhead⟩ := hprod
          have hupd := steal_update_inv P st entry score rslot bappt chain
            hinv hget hok hpids.1 hhead hfresh
          have hst' : st' =
              ⟨mapInsert (apply_move_chain chain st.schedule st.used).schedule
                rslot (mkAppt entry rslot score),
               rslot :: (apply_move_chain chain st.schedule st.used).used,
               st.unassigned⟩ := (Option.some.inj h).symm
          rw [hst']
          exact ⟨hupd.1, hupd.2, rfl⟩

theorem free_insert_inv (P : List Nat) (st : SchedState)
    (entry : AppointmentEntry) (slot score : Nat) (hinv : SInv P st)
    (hfresh : entry.player_id ∉ pidsOf st.schedule)
    (hfree : slot ∉ st.used) :
    SInv P
      ⟨mapInsert st.schedule slot (mkAppt entry slot score),
       slot :: st.used, st.unassigned⟩ ∧
    ∀ p, p ∈ pidsOf (mapInsert st.schedule slot (mkAppt entry slot score)) ↔
      (p ∈ pidsOf st.schedule ∨ p = entry.player_id) := by
  have hpnk : slot ∉ keysOf st.schedule :=
    fun hc => hfree (hinv.keys_used _ hc)
  have hrem : mapRemove st.schedule slot = st.schedule :=
    mapRemove_of_not_mem _ _ hpnk
  constructor
  · refine ⟨?_, ?_, ?_, ?_, ?_, ?_⟩
    · exact keysOf_nodup_mapInsert _ _ _ hinv.keys_nodup
    · refine pidsOf_nodup_mapInsert _ _ _ hinv.pids_nodup ?_
      rw [hrem]
      exact hfresh
    · intro k hk
      rw [keysOf_mapInsert, hrem] at hk
      rcases List.mem_cons.mp hk with he | hmem
      · exact he ▸ List.mem_cons_self _ _
      · exact List.mem_cons_of_mem _ (hinv.keys_used k hmem)
    · intro s hs
      exact List.mem_cons_of_mem _ (hinv.pre_used s hs)
    · intro k hk
      rw [keysOf_mapInsert, hrem] at hk
      rcases List.mem_cons.mp hk with he | hmem
      · rw [he]
        intro hc
        exact hfree (hinv.pre_used _ hc)
      · exact hinv.keys_pre k hmem
    · intro k a ha
      rw [mapGet_mapInsert] at ha
      by_cases hk : slot = k
      · rw [if_pos hk] at ha
        have := Option.some.inj ha
        rw [← this, ← hk]
        rfl
      · rw [if_neg hk] at ha
        exact hinv.slot_agree k a ha
  · intro p
    rw [pidsOf_mapInsert, hrem]
    constructor
    · intro hp
      rcases List.mem_cons.mp hp with he | hmem
      · exact Or.inr he
      · exact Or.inl hmem
    · rintro (hp | hp)
      · exact List.mem_cons_of_mem _ hp
      · exact hp ▸ List.mem_cons_self _ _

theorem processEntry_step (gav : AppointmentEntry → List Nat)
    (score : AppointmentEntry → Nat) (rankings : Nat → Nat) (emap : EntryMap)
    (locked : List Nat) (P : List Nat) (st : SchedState)
    (entry : AppointmentEntry) (hinv : SInv P st)
    (hfresh : entry.player_id ∉ pidsOf st.schedule) :
    SInv P (processEntry gav score rankings emap locked st entry) ∧
    (((∀ p,
        p ∈ pidsOf (processEntry gav score rankings emap locked st
          entry).schedule ↔
        (p ∈ pidsOf st.schedule ∨ p = entry.player_id)) ∧
      (processEntry gav score rankings emap locked st entry).unassigned =
        st.unassigned) ∨
     ((∀ p,
        p ∈ pidsOf (processEntry gav score rankings emap locked st
          entry).schedule ↔ p ∈ pidsOf st.schedule) ∧
      (processEntry gav score rankings emap locked st entry).unassigned =
        st.unassigned ++ [entry.player_id])) := by
  simp only [processEntry]
  split
  · rename_i p hfind
    have hfree : p.1 ∉ st.used := by
      have := List.find?_some hfind
      simp only [decide_eq_true_eq] at this
      exact this
    have := free_insert_inv P st entry p.1 (score entry) hinv hfresh hfree
    exact ⟨this.1, Or.inl ⟨this.2, rfl⟩⟩
  · split
    · rename_i st' hsteal
      have := stealLoop_some entry (score entry) gav emap locked P _ st st'
        hinv hfresh hsteal
      exact ⟨this.1, Or.inl ⟨this.2.1, this.2.2⟩⟩
    · refine ⟨⟨hinv.keys_nodup, hinv.pids_nodup, hinv.keys_used,
        hinv.pre_used, hinv.keys_pre, hinv.slot_agree⟩, ?_⟩
      exact Or.inr ⟨fun p => Iff.rfl, rfl⟩

theorem fold_spec (P : List Nat)
    (step : SchedState → AppointmentEntry → SchedState)
    (hstep : StepSpec P step) :
    ∀ (rem : List AppointmentEntry) (st : SchedState),
    SInv P st →
    (rem.map AppointmentEntry.player_id).Nodup →
    (∀ e ∈ rem, AppointmentEntry.player_id e ∉ pidsOf st.schedule ∧
      AppointmentEntry.player_id e ∉ st.unassigned) →
    SInv P (rem.foldl step st) ∧
    (∀ p, p ∈ pidsOf (rem.foldl step
        st).schedule →
      p ∈ pidsOf st.schedule ∨ p ∈ rem.map AppointmentEntry.player_id) ∧
    (∀ p, p ∈ (rem.foldl step
        st).unassigned →
      p ∈ st.unassigned ∨ p ∈ rem.map AppointmentEntry.player_id) ∧
    (∀ p, Xor' (p ∈ pidsOf st.schedule) (p ∈ st.unassigned) →
      Xor' (p ∈ pidsOf (rem.foldl step st).schedule)
        (p ∈ (rem.foldl step
          st).unassigned)) ∧
    (∀ e ∈ rem,
      Xor' (AppointmentEntry.player_id e ∈ pidsOf (rem.foldl step st).schedule)
        (AppointmentEntry.player_id e ∈ (rem.foldl step st).unassigned)) := by
  intro rem
  induction rem with
  | nil =>
    intro st hinv _ _
    refine ⟨hinv, fun p hp => Or.inl hp, fun p hp => Or.inl hp,
      fun p hx => hx, ?_⟩
    intro e he
    simp at he
  | cons e rest ih =>
    intro st hinv hnd hfreshall
    have hfresh := (hfreshall e (List.mem_cons_self _ _)).1
    have hfreshu := (hfreshall e (List.mem_cons_self _ _)).2
    rw [List.map_cons, List.nodup_cons] at hnd
    obtain ⟨hstep_inv, hstep_cases⟩ := hstep st e hinv hfresh
    rw [List.foldl_cons]
    have hfresh_rest : ∀ e' ∈ rest,
        AppointmentEntry.player_id e' ∉ pidsOf (step st e).schedule ∧
        AppointmentEntry.player_id e' ∉ (step st e).unassigned := by
      intro e' he'
      have hne : AppointmentEntry.player_id e' ≠
          AppointmentEntry.player_id e := by
        intro hc
        exact hnd.1 (hc ▸ List.mem_map.mpr ⟨e', he', rfl⟩)
      have hf' := hfreshall e' (List.mem_cons_of_mem _ he')
      rcases hstep_cases with ⟨hiff, huna⟩ | ⟨hiff, huna⟩
      · constructor
        · intro hc
          rcases (hiff _).mp hc with hc' | hc'
          · exact hf'.1 hc'
          · exact hne hc'
        · rw [huna]
          exact hf'.2
      · constructor
        · intro hc
          exact hf'.1 ((hiff _).mp hc)
        · rw [huna]
          intro hc
          rcases List.mem_append.mp hc with hc' | hc'
          · exact hf'.2 hc'
          · exact hne (List.mem_singleton.mp hc')
    obtain ⟨ihInv, ihPids, ihUna, ihXpres, ihXall⟩ :=
      ih (step st e) hstep_inv hnd.2 hfresh_rest
    refine ⟨ihInv, ?_, ?_, ?_, ?_⟩
    · intro p hp
      rcases ihPids p hp with hp' | hp'
      · rcases hstep_cases with ⟨hiff, _⟩ | ⟨hiff, _⟩
        · rcases (hiff _).mp hp' with hc | hc
          · exact Or.inl hc
          · exact Or.inr (by rw [List.map_cons, hc]; exact
              List.mem_cons_self _ _)
        · exact Or.inl ((hiff _).mp hp')
      · exact Or.inr (by rw [List.map_cons]; exact
          List.mem_cons_of_mem _ hp')
    · intro p hp
      rcases ihUna p hp with hp' | hp'
      · rcases hstep_cases with ⟨_, huna⟩ | ⟨_, huna⟩
        · rw [huna] at hp'
          exact Or.inl hp'
        · rw [huna] at hp'
          rcases List.mem_append.mp hp' with hc | hc
          · exact Or.inl hc
          · exact Or.inr (by rw [List.map_cons,
              List.mem_singleton.mp hc]; exact List.mem_cons_self _ _)
      · exact Or.inr (by rw [List.map_cons]; exact
          List.mem_cons_of_mem _ hp')
    · intro p hx
      refine ihXpres p ?_
      rcases hstep_cases with ⟨hiff, huna⟩ | ⟨hiff, huna⟩
      · rcases hx with ⟨hin, hout⟩ | ⟨hin, hout⟩
        · refine Or.inl ⟨(hiff _).mpr (Or.inl hin), ?_⟩
          rw [huna]
          exact hout
        · refine Or.inr ⟨?_, ?_⟩
          · rw [huna]
            exact hin
          · intro hc
            rcases (hiff _).mp hc with hc' | hc'
            · exact hout hc'
            · rw [hc'] at hin
              exact hfreshu hin
      · rcases hx with ⟨hin, hout⟩ | ⟨hin, hout⟩
        · refine Or.inl ⟨(hiff _).mpr hin, ?_⟩
          rw [huna]
          intro hc
          rcases List.mem_append.mp hc with hc' | hc'
          · exact hout hc'
          · rw [List.mem_singleton.mp hc'] at hin
            exact hfresh hin
        · refine Or.inr ⟨?_, fun hc => hout ((hiff _).mp hc)⟩
          rw [huna]
          exact List.mem_append.mpr (Or.inl hin)
    · intro e' he'
      rcases List.mem_cons.mp he' with he'' | hmem
      · subst he''
        refine ihXpres _ ?_
        rcases hstep_cases with ⟨hiff, huna⟩ | ⟨hiff, huna⟩
        · refine Or.inl ⟨(hiff _).mpr (Or.inr rfl), ?_⟩
          rw [huna]
          exact hfreshu
        · refine Or.inr ⟨?_, ?_⟩
          · rw [huna]
            exact List.mem_append.mpr (Or.inr (List.mem_singleton.mpr rfl))
          · intro hc
            exact hfresh ((hiff _).mp hc)
      · exact ihXall e' hmem

theorem generic_spec (entries : List AppointmentEntry)
    (wants : AppointmentEntry → Bool) (gav : AppointmentEntry → List Nat)
    (score : AppointmentEntry → Nat) (pre locked : List Nat)
    (hnd : ((entries.filter (fun e => wants e && !(gav e).isEmpty)).map
      AppointmentEntry.player_id).Nodup) :
    (keysOf (schedule_day_generic_with_locked_slots entries wants gav score
      pre locked).appointments).Nodup ∧
    (pidsOf (schedule_day_generic_with_locked_slots entries wants gav score
      pre locked).appointments).Nodup ∧
    (∀ k ∈ keysOf (schedule_day_generic_with_locked_slots entries wants gav
      score pre locked).appointments, k ∉ pre) ∧
    (∀ k a, mapGet (schedule_day_generic_with_locked_slots entries wants gav
      score pre locked).appointments k = some a → a.slot = k) ∧
    (∀ p ∈ pidsOf (schedule_day_generic_with_locked_slots entries wants gav
      score pre locked).appointments,
      p ∈ (entries.filter (fun e => wants e && !(gav e).isEmpty)).map
        AppointmentEntry.player_id) ∧
    (∀ p ∈ (schedule_day_generic_with_locked_slots entries wants gav score
      pre locked).unassigned,
      p ∈ (entries.filter (fun e => wants e && !(gav e).isEmpty)).map
        AppointmentEntry.player_id) ∧
    (∀ e ∈ entries.filter (fun e => wants e && !(gav e).isEmpty),
      Xor'
        (AppointmentEntry.player_id e ∈
          pidsOf (schedule_day_generic_with_locked_slots entries wants gav
            score pre locked).appointments)
        (AppointmentEntry.player_id e ∈
          (schedule_day_generic_with_locked_slots entries wants gav score pre
            locked).unassigned)) := by
  have h0 : SInv pre (⟨[], pre, []⟩ : SchedState) := by
    refine ⟨List.nodup_nil, List.nodup_nil, ?_, fun s hs => hs, ?_, ?_⟩
    · intro k hk
      simp [keysOf] at hk
    · intro k hk
      simp [keysOf] at hk
    · intro k a ha
      simp [mapGet] at ha
  have hperm : ((sortByKeyDesc score (entries.filter
      (fun e => wants e && !(gav e).isEmpty))).map
        AppointmentEntry.player_id).Perm
      ((entries.filter (fun e => wants e && !(gav e).isEmpty)).map
        AppointmentEntry.player_id) :=
    (sortByKeyDesc_perm score _).map _
  have hnd' := (hperm.nodup_iff).mpr hnd
  have hfresh0 : ∀ e ∈ sortByKeyDesc score (entries.filter
      (fun e => wants e && !(gav e).isEmpty)),
      AppointmentEntry.player_id e ∉
        pidsOf (⟨[], pre, []⟩ : SchedState).schedule ∧
      AppointmentEntry.player_id e ∉
        (⟨[], pre, []⟩ : SchedState).unassigned := by
    intro e _
    constructor
    · intro hc
      simp [pidsOf] at hc
    · intro hc
      simp at hc
  have key := fold_spec pre
    (processEntry gav score
      (calculate_slot_rankings ((entries.filter
        (fun e => wants e && !(gav e).isEmpty)).map gav))
      (buildEntryMap (sortByKeyDesc score (entries.filter
        (fun e => wants e && !(gav e).isEmpty))))
      locked)
    (fun st e hinv hfresh => processEntry_step gav score
      (calculate_slot_rankings ((entries.filter
        (fun e => wants e && !(gav e).isEmpty)).map gav))
      (buildEntryMap (sortByKeyDesc score (entries.filter
        (fun e => wants e && !(gav e).isEmpty))))
      locked pre st e hinv hfresh)
    (sortByKeyDesc score (entries.filter
      (fun e => wants e && !(gav e).isEmpty)))
    (⟨[], pre, []⟩ : SchedState) h0 hnd' hfresh0
  obtain ⟨kInv, kPids, kUna, _kXpres, kXall⟩ := key
  refine ⟨kInv.keys_nodup, kInv.pids_nodup, kInv.keys_pre, kInv.slot_agree,
    ?_, ?_, ?_⟩
  · intro p hp
    rcases kPids p hp with hc | hc
    · simp [pidsOf] at hc
    · exact hperm.subset hc
  · intro p hp
    rcases kUna p hp with hc | hc
    · simp at hc
    · exact hperm.subset hc
  · intro e he
    exact kXall e ((sortByKeyDesc_perm score _).mem_iff.mpr he)

/-! ### Construction scheduler loop lemmas -/

theorem consStealLoop_some (entry : AppointmentEntry) (emap : EntryMap)
    (last_slot : Nat) (P : List Nat) :
    ∀ (blocking : List (Nat × String × Nat × Nat)) (st st' : SchedState),
    SInv P st →
    AppointmentEntry.player_id entry ∉ pidsOf st.schedule →
    consStealLoop entry emap last_slot blocking st = some st' →
    SInv P st' ∧
    (∀ p, p ∈ pidsOf st'.schedule ↔
      (p ∈ pidsOf st.schedule ∨ p = AppointmentEntry.player_id entry)) ∧
    st'.unassigned = st.unassigned := by
  intro blocking
  induction blocking with
  | nil =>
    intro st st' _ _ h
    simp [consStealLoop] at h
  | cons b rest ih =>
    intro st st' hinv hfresh h
    obtain ⟨rslot, bpid, bscore, bcomb⟩ := b
    simp only [consStealLoop] at h
    split at h
    · exact ih st st' hinv hfresh h
    · split at h
      · exact ih st st' hinv hfresh h
      · rename_i bappt hget
        split at h
        · exact ih st st' hinv hfresh h
        · rename_i bentry hemap
          split at h
          · exact ih st st' hinv hfresh h
          · rename_i chain hchain
            rw [find_move_chain] at hchain
            have hprod := find_move_chain_fuel_chainOK _ _ _ _ _ _ _ _ _ _ _
              _ _ _ hget rfl hchain
            have hpids := find_move_chain_fuel_pids _ _ _ _ _ _ _ _ _ _ _ _
              _ (List.mem_cons_self _ _) hchain
            obtain ⟨hok, hhead⟩ := hprod
            have hupd := steal_update_inv P st entry
              entry.construction_score rslot bappt chain hinv hget hok
              hpids.1 hhead hfresh
            have hst' : st' =
                ⟨mapInsert
                  (apply_move_chain chain st.schedule st.used).schedule rslot
                  (mkAppt entry rslot entry.construction_score),
                 rslot :: (apply_move_chain chain st.schedule st.used).used,
                 st.unassigned⟩ := (Option.some.inj h).symm
            rw [hst']
            exact ⟨hupd.1, hupd.2, rfl⟩

theorem consProcessEntry_step (rankings : Nat → Nat) (emap : EntryMap)
    (last_slot : Nat) (P : List Nat) :
    StepSpec P (consProcessEntry rankings emap last_slot) := by
  intro st entry hinv hfresh
  simp only [consProcessEntry]
  split
  · rename_i p hfind
    have hfree : p.1 ∉ st.used := by
      have := List.find?_some hfind
      simp only [decide_eq_true_eq] at this
      exact this
    have := free_insert_inv P st entry p.1 entry.construction_score hinv
      hfresh hfree
    exact ⟨this.1, Or.inl ⟨this.2, rfl⟩⟩
  · split
    · rename_i st' hsteal
      have := consStealLoop_some entry emap last_slot P _ st st' hinv hfresh
        hsteal
      exact ⟨this.1, Or.inl ⟨this.2.1, this.2.2⟩⟩
    · refine ⟨⟨hinv.keys_nodup, hinv.pids_nodup, hinv.keys_used,
        hinv.pre_used, hinv.keys_pre, hinv.slot_agree⟩, ?_⟩
      exact Or.inr ⟨fun p => Iff.rfl, rfl⟩

theorem cons_init_inv (last_slot : Nat) (prio : List AppointmentEntry)
    (pre : List Nat) :
    SInv pre
      ⟨consSchedule0 last_slot (consWinner last_slot prio pre),
       consUsed0 last_slot (consWinner last_slot prio pre) pre, []⟩ := by
  cases hw : consWinner last_slot prio pre with
  | none =>
    simp only [consSchedule0, consUsed0]
    refine ⟨List.nodup_nil, List.nodup_nil, ?_, fun s hs => hs, ?_, ?_⟩
    · intro k hk
      simp [keysOf] at hk
    · intro k hk
      simp [keysOf] at hk
    · intro k a ha
      simp [mapGet] at ha
  | some w =>
    have hpred := List.find?_some hw
    rw [Bool.and_eq_true, decide_eq_true_eq, decide_eq_true_eq] at hpred
    simp only [consSchedule0, consUsed0]
    refine ⟨?_, ?_, ?_, ?_, ?_, ?_⟩
    · simp [keysOf]
    · simp [pidsOf]
    · intro k hk
      simp only [keysOf, List.map_cons, List.map_nil] at hk
      rw [List.mem_singleton] at hk
      exact hk ▸ List.mem_cons_self _ _
    · intro s hs
      exact List.mem_cons_of_mem _ hs
    · intro k hk
      simp only [keysOf, List.map_cons, List.map_nil] at hk
      rw [List.mem_singleton] at hk
      exact hk ▸ hpred.2
    · intro k a ha
      rw [mapGet_cons] at ha
      by_cases hkl : last_slot = k
      · rw [if_pos hkl] at ha
        have := Option.some.inj ha
        rw [← this, ← hkl]
        rfl
      · rw [if_neg hkl] at ha
        simp [mapGet] at ha

theorem filter_not_partition_perm (p : α → Bool) (l : List α) :
    (l.filter p ++ l.filter (fun a => !p a)).Perm l := by
  induction l with
  | nil => simp
  | cons a l ih =>
    by_cases h : p a
    · rw [List.filter_cons, List.filter_cons]
      simp only [h, if_pos, Bool.not_true]
      rw [show (if (false : Bool) = true then a :: List.filter
        (fun a => !p a) l else List.filter (fun a => !p a) l) =
        List.filter (fun a => !p a) l from by simp]
      exact ih.cons a
    · rw [List.filter_cons, List.filter_cons]
      have hb : p a = false := by
        cases hpa : p a
        · rfl
        · exact absurd hpa h
      simp only [hb, Bool.not_false, if_pos]
      rw [show (if (false : Bool) = true then a :: List.filter p l
        else List.filter p l) = List.filter p l from by simp]
      exact (List.perm_middle.trans (ih.cons a))

theorem cons_remaining_fresh (cand : List AppointmentEntry) (pre : List Nat)
    (last_slot : Nat)
    (hnd : (cand.map AppointmentEntry.player_id).Nodup) :
    ((sortByKeyDesc (fun e => e.construction_score)
      (consRemaining0 last_slot
        (consWinner last_slot (consPrio last_slot cand) pre)
        (consPrio last_slot cand)
        (consSchedule0 last_slot
          (consWinner last_slot (consPrio last_slot cand) pre))
        (consUsed0 last_slot
          (consWinner last_slot (consPrio last_slot cand) pre) pre) ++
       consOther last_slot cand)).map AppointmentEntry.player_id).Nodup ∧
    ∀ e ∈ sortByKeyDesc (fun e => e.construction_score)
      (consRemaining0 last_slot
        (consWinner last_slot (consPrio last_slot cand) pre)
        (consPrio last_slot cand)
        (consSchedule0 last_slot
          (consWinner last_slot (consPrio last_slot cand) pre))
        (consUsed0 last_slot
          (consWinner last_slot (consPrio last_slot cand) pre) pre) ++
       consOther last_slot cand),
      AppointmentEntry.player_id e ∉
        pidsOf (consSchedule0 last_slot
          (consWinner last_slot (consPrio last_slot cand) pre)) := by
  have hpartition := filter_not_partition_perm (consIsPriority last_slot)
    cand
  have hABnodup : ((cand.filter (consIsPriority last_slot)).map
      AppointmentEntry.player_id ++
      (cand.filter (fun e => !consIsPriority last_slot e)).map
        AppointmentEntry.player_id).Nodup := by
    rw [← List.map_append]
    exact ((hpartition.map AppointmentEntry.player_id).nodup_iff).mpr hnd
  rw [List.nodup_append] at hABnodup
  obtain ⟨hAnd, hBnd, hABdisj⟩ := hABnodup
  have hprioperm : (consPrio last_slot cand).Perm
      (cand.filter (consIsPriority last_slot)) := sortByKeyDesc_perm _ _
  have hotherperm : (consOther last_slot cand).Perm
      (cand.filter (fun e => !consIsPriority last_slot e)) :=
    sortByKeyDesc_perm _ _
  have hprio_pids_nd : ((consPrio last_slot cand).map
      AppointmentEntry.player_id).Nodup :=
    ((hprioperm.map AppointmentEntry.player_id).nodup_iff).mpr hAnd
  have hother_pids_nd : ((consOther last_slot cand).map
      AppointmentEntry.player_id).Nodup :=
    ((hotherperm.map AppointmentEntry.player_id).nodup_iff).mpr hBnd
  cases hw : consWinner last_slot (consPrio last_slot cand) pre with
  | none =>
    simp only [consRemaining0, consSchedule0]
    constructor
    · have hperm2 : ((consPrio last_slot cand ++ consOther last_slot
          cand).map AppointmentEntry.player_id).Perm
          ((cand.filter (consIsPriority last_slot)).map
            AppointmentEntry.player_id ++
           (cand.filter (fun e => !consIsPriority last_slot e)).map
            AppointmentEntry.player_id) := by
        rw [List.map_append]
        exact (hprioperm.map _).append (hotherperm.map _)
      have hnd2 := (hperm2.nodup_iff).mpr
        (by rw [List.nodup_append]; exact ⟨hAnd, hBnd, hABdisj⟩)
      exact (((sortByKeyDesc_perm (fun e => e.construction_score)
        (consPrio last_slot cand ++ consOther last_slot cand)).map
          AppointmentEntry.player_id).nodup_iff).mpr hnd2
    · intro e _ hc
      simp [pidsOf] at hc
  | some wi =>
    have hwi_mem_prio : wi ∈ consPrio last_slot cand :=
      List.mem_of_find?_eq_some hw
    have hwi_pid_A : AppointmentEntry.player_id wi ∈
        (cand.filter (consIsPriority last_slot)).map
          AppointmentEntry.player_id :=
      List.mem_map.mpr ⟨wi, hprioperm.subset hwi_mem_prio, rfl⟩
    have hget0 : mapGet (consSchedule0 last_slot (some wi)) last_slot =
        some (mkAppt wi last_slot wi.construction_score) := by
      simp [consSchedule0, mapGet_cons]
    have hrem0_pred : ∀ e ∈ consRemaining0 last_slot (some wi)
        (consPrio last_slot cand) (consSchedule0 last_slot (some wi))
        (consUsed0 last_slot (some wi) pre),
        e ∈ consPrio last_slot cand ∧
          AppointmentEntry.player_id wi ≠ AppointmentEntry.player_id e := by
      intro e he
      simp only [consRemaining0] at he
      have hmf := List.mem_filter.mp he
      refine ⟨hmf.1, ?_⟩
      have hpred := hmf.2
      have hlast_mem : last_slot ∈ consUsed0 last_slot (some wi) pre := by
        simp [consUsed0]
      rw [Bool.or_eq_true] at hpred
      rcases hpred with hpred | hpred
      · rw [decide_eq_true_eq] at hpred
        exact absurd hlast_mem hpred
      · rw [hget0] at hpred
        simp only [mkAppt] at hpred
        intro hc
        rw [hc] at hpred
        simp at hpred
    have hsub : (consRemaining0 last_slot (some wi)
        (consPrio last_slot cand) (consSchedule0 last_slot (some wi))
        (consUsed0 last_slot (some wi) pre)).Sublist
        (consPrio last_slot cand) := by
      simp only [consRemaining0]
      exact List.filter_sublist _
    have hrem0_nd : ((consRemaining0 last_slot (some wi)
        (consPrio last_slot cand) (consSchedule0 last_slot (some wi))
        (consUsed0 last_slot (some wi) pre)).map
          AppointmentEntry.player_id).Nodup :=
      hprio_pids_nd.sublist (hsub.map _)
    constructor
    · have hnd2 : ((consRemaining0 last_slot (some wi)
          (consPrio last_slot cand) (consSchedule0 last_slot (some wi))
          (consUsed0 last_slot (some wi) pre) ++
          consOther last_slot cand).map AppointmentEntry.player_id).Nodup := by
        rw [List.map_append, List.nodup_append]
        refine ⟨hrem0_nd, hother_pids_nd, ?_⟩
        intro a ha hb
        have haA : a ∈ (cand.filter (consIsPriority last_slot)).map
            AppointmentEntry.player_id := by
          rcases List.mem_map.mp ha with ⟨e, he, hpe⟩
          exact List.mem_map.mpr
            ⟨e, hprioperm.subset (hsub.subset he), hpe⟩
        have hbB : a ∈ (cand.filter (fun e => !consIsPriority last_slot
            e)).map AppointmentEntry.player_id := by
          rcases List.mem_map.mp hb with ⟨e, he, hpe⟩
          exact List.mem_map.mpr ⟨e, hotherperm.subset he, hpe⟩
        exact hABdisj haA hbB
      exact (((sortByKeyDesc_perm
        (fun e : AppointmentEntry => e.construction_score) _).map
        AppointmentEntry.player_id).nodup_iff).mpr hnd2
    · intro e he hc
      have he' := (sortByKeyDesc_perm
        (fun e : AppointmentEntry => e.construction_score) _).subset he
      have hpids0 : pidsOf (consSchedule0 last_slot (some wi)) =
          [AppointmentEntry.player_id wi] := by
        simp [consSchedule0, pidsOf, mkAppt]
      rw [hpids0, List.mem_singleton] at hc
      rcases List.mem_append.mp he' with hmem | hmem
      · exact (hrem0_pred e hmem).2 hc.symm
      · have heB : AppointmentEntry.player_id e ∈
            (cand.filter (fun e => !consIsPriority last_slot e)).map
              AppointmentEntry.player_id :=
          List.mem_map.mpr ⟨e, hotherperm.subset hmem, rfl⟩
        rw [hc] at heB
        exact hABdisj hwi_pid_A heB

theorem construction_spec (entries : List AppointmentEntry)
    (pre : List Nat)
    (hnd : ((consCandidates entries).map
      AppointmentEntry.player_id).Nodup) :
    (keysOf (schedule_construction_day_with_locked entries
      pre).appointments).Nodup ∧
    (pidsOf (schedule_construction_day_with_locked entries
      pre).appointments).Nodup ∧
    (∀ k ∈ keysOf (schedule_construction_day_with_locked entries
      pre).appointments, k ∉ pre) ∧
    (∀ k a, mapGet (schedule_construction_day_with_locked entries
      pre).appointments k = some a → a.slot = k) := by
  have hinit := cons_init_inv (consLastSlot (consCandidates entries))
    (consPrio (consLastSlot (consCandidates entries))
      (consCandidates entries)) pre
  have hfr := cons_remaining_fresh (consCandidates entries) pre
    (consLastSlot (consCandidates entries)) hnd
  have key := fold_spec pre
    (consProcessEntry
      (calculate_slot_rankings ((consCandidates entries).map
        (fun e => e.construction_available_slots)))
      (buildEntryMap (consCandidates entries))
      (consLastSlot (consCandidates entries)))
    (consProcessEntry_step _ _ _ pre)
    (sortByKeyDesc (fun e => e.construction_score)
      (consRemaining0 (consLastSlot (consCandidates entries))
        (consWinner (consLastSlot (consCandidates entries))
          (consPrio (consLastSlot (consCandidates entries))
            (consCandidates entries)) pre)
        (consPrio (consLastSlot (consCandidates entries))
          (consCandidates entries))
        (consSchedule0 (consLastSlot (consCandidates entries))
          (consWinner (consLastSlot (consCandidates entries))
            (consPrio (consLastSlot (consCandidates entries))
              (consCandidates entries)) pre))
        (consUsed0 (consLastSlot (consCandidates entries))
          (consWinner (consLastSlot (consCandidates entries))
            (consPrio (consLastSlot (consCandidates entries))
              (consCandidates entries)) pre) pre) ++
       consOther (consLastSlot (consCandidates entries))
        (consCandidates entries)))
    ⟨consSchedule0 (consLastSlot (consCandidates entries))
      (consWinner (consLastSlot (consCandidates entries))
        (consPrio (consLastSlot (consCandidates entries))
          (consCandidates entries)) pre),
     consUsed0 (consLastSlot (consCandidates entries))
      (consWinner (consLastSlot (consCandidates entries))
        (consPrio (consLastSlot (consCandidates entries))
          (consCandidates entries)) pre) pre, []⟩
    hinit hfr.1 ?_
  · exact ⟨key.1.keys_nodup, key.1.pids_nodup, key.1.keys_pre,
      key.1.slot_agree⟩
  · intro e he
    refine ⟨hfr.2 e he, ?_⟩
    intro hc
    simp at hc

/-! ### Map-extension lemmas (research merge) -/

theorem mapGet_mapExtend (adds : Schedule) :
    ∀ (base : Schedule), (keysOf adds).Nodup → ∀ k,
    mapGet (mapExtend base adds) k =
      match mapGet adds k with
      | some v => some v
      | none => mapGet base k := by
  induction adds with
  | nil =>
    intro base _ k
    simp [mapExtend, mapGet]
  | cons p rest ih =>
    intro base hnd k
    simp only [keysOf, List.map_cons, List.nodup_cons] at hnd
    rw [show mapExtend base (p :: rest) =
      mapExtend (mapInsert base p.1 p.2) rest from rfl]
    rw [ih _ hnd.2 k]
    by_cases hk : p.1 = k
    · have hrest : mapGet rest k = none := by
        rw [mapGet_eq_none_iff]
        exact hk ▸ hnd.1
      rw [hrest, mapGet_cons, if_pos hk, mapGet_mapInsert, if_pos hk]
    · rw [mapGet_cons, if_neg hk]
      cases hrk : mapGet rest k with
      | some v => rfl
      | none => rw [mapGet_mapInsert, if_neg hk]

theorem keysOf_mapExtend_nodup (adds : Schedule) :
    ∀ (base : Schedule), (keysOf base).Nodup →
    (keysOf (mapExtend base adds)).Nodup := by
  induction adds with
  | nil => exact fun base h => h
  | cons p rest ih =>
    intro base h
    exact ih _ (keysOf_nodup_mapInsert _ _ _ h)

theorem keysOf_mapExtend_subset (adds : Schedule) :
    ∀ (base : Schedule) (k : Nat), k ∈ keysOf (mapExtend base adds) →
    k ∈ keysOf base ∨ k ∈ keysOf adds := by
  induction adds with
  | nil => exact fun base k hk => Or.inl hk
  | cons p rest ih =>
    intro base k hk
    rcases ih _ k hk with hb | ha
    · rw [keysOf_mapInsert] at hb
      rcases List.mem_cons.mp hb with he | hmem
      · exact Or.inr (he ▸ List.mem_cons_self _ _)
      · exact Or.inl ((keysOf_mapRemove_sublist _ _).subset hmem)
    · exact Or.inr (List.mem_cons_of_mem _ ha)

theorem pidsOf_mapExtend_nodup (adds : Schedule) :
    ∀ (base : Schedule), (pidsOf base).Nodup → (pidsOf adds).Nodup →
    (∀ q ∈ pidsOf adds, q ∉ pidsOf base) →
    (pidsOf (mapExtend base adds)).Nodup := by
  induction adds with
  | nil => exact fun base hb _ _ => hb
  | cons p rest ih =>
    intro base hb ha hdisj
    simp only [pidsOf, List.map_cons, List.nodup_cons] at ha
    refine ih _ ?_ ha.2 ?_
    · refine pidsOf_nodup_mapInsert _ _ _ hb ?_
      intro hc
      exact hdisj _ (List.mem_cons_self _ _)
        ((pidsOf_mapRemove_sublist _ _).subset hc)
    · intro q hq
      rw [pidsOf_mapInsert]
      intro hc
      rcases List.mem_cons.mp hc with he | hmem
      · exact ha.1 (he ▸ hq)
      · exact hdisj q (List.mem_cons_of_mem _ hq)
          ((pidsOf_mapRemove_sublist _ _).subset hmem)

theorem pidsOf_mapExtend_subset (adds : Schedule) :
    ∀ (base : Schedule) (q : String), q ∈ pidsOf (mapExtend base adds) →
    q ∈ pidsOf base ∨ q ∈ pidsOf adds := by
  induction adds with
  | nil => exact fun base q hq => Or.inl hq
  | cons p rest ih =>
    intro base q hq
    rcases ih _ q hq with hb | ha
    · rw [pidsOf_mapInsert] at hb
      rcases List.mem_cons.mp hb with he | hmem
      · exact Or.inr (he ▸ List.mem_cons_self _ _)
      · exact Or.inl ((pidsOf_mapRemove_sublist _ _).subset hmem)
    · exact Or.inr (List.mem_cons_of_mem _ ha)

/-! ### Research scheduler lemmas -/

theorem researchSchedule1_keys_nodup (seat : Option AppointmentEntry) :
    (keysOf (researchSchedule1 seat)).Nodup := by
  cases seat <;> simp [researchSchedule1, keysOf]

theorem researchSchedule1_pids_nodup (seat : Option AppointmentEntry) :
    (pidsOf (researchSchedule1 seat)).Nodup := by
  cases seat <;> simp [researchSchedule1, pidsOf]

theorem researchSchedule1_agree (seat : Option AppointmentEntry) :
    ∀ k a, mapGet (researchSchedule1 seat) k = some a → a.slot = k := by
  cases seat with
  | none =>
    intro k a ha
    simp [researchSchedule1, mapGet] at ha
  | some x =>
    intro k a ha
    simp only [researchSchedule1] at ha
    rw [mapGet_cons] at ha
    by_cases hk : 1 = k
    · rw [if_pos hk] at ha
      have := Option.some.inj ha
      rw [← this, ← hk]
    · rw [if_neg hk] at ha
      simp [mapGet] at ha

theorem researchSeat_props (entries : List AppointmentEntry)
    (cons : DaySchedule) (pre : List Nat) (x : AppointmentEntry)
    (hseat : researchSeat entries cons pre = some x) :
    x.wants_research = true ∧ 1 ∈ x.research_available_slots ∧ 1 ∉ pre := by
  unfold researchSeat at hseat
  split at hseat
  · exact absurd hseat (by simp)
  · split at hseat
    · exact absurd hseat (by simp)
    · split at hseat
      · exact absurd hseat (by simp)
      · rename_i entry hfind
        split at hseat
        · rename_i hcond
          have hx : entry = x := Option.some.inj hseat
          rw [Bool.and_eq_true, Bool.and_eq_true, decide_eq_true_eq,
            decide_eq_true_eq] at hcond
          exact hx ▸ ⟨hcond.1.1, hcond.1.2, hcond.2⟩
        · exact absurd hseat (by simp)

theorem double_filter_pids_nodup (entries : List AppointmentEntry)
    (p q : AppointmentEntry → Bool)
    (hnd : (entries.map AppointmentEntry.player_id).Nodup) :
    (((entries.filter p).filter q).map AppointmentEntry.player_id).Nodup :=
  hnd.sublist
    (((List.filter_sublist _).trans (List.filter_sublist _)).map _)

theorem research_spec (entries : List AppointmentEntry)
    (cons_sched : DaySchedule) (pre : List Nat)
    (hnd : (entries.map AppointmentEntry.player_id).Nodup) :
    (keysOf (schedule_research_day_with_locked entries cons_sched
      pre).appointments).Nodup ∧
    (pidsOf (schedule_research_day_with_locked entries cons_sched
      pre).appointments).Nodup ∧
    (∀ k ∈ keysOf (schedule_research_day_with_locked entries cons_sched
      pre).appointments, k ∉ pre) ∧
    (∀ k a, mapGet (schedule_research_day_with_locked entries cons_sched
      pre).appointments k = some a → a.slot = k) := by
  simp only [schedule_research_day_with_locked]
  cases hseat : researchSeat entries cons_sched pre with
  | none =>
    simp only [Option.map_none']
    have hg := generic_spec
      (entries.filter (fun _ => true))
      (fun e => e.wants_research) (fun e => e.research_available_slots)
      (fun e => e.research_score) (researchUsed1 none pre)
      (if 1 ∈ researchUsed1 none pre then [1] else [])
      (double_filter_pids_nodup entries _ _ hnd)
    obtain ⟨hgk, hgp, hgpre, hgagree, _, _, _⟩ := hg
    refine ⟨?_, ?_, ?_, ?_⟩
    · exact keysOf_mapExtend_nodup _ _ (researchSchedule1_keys_nodup none)
    · refine pidsOf_mapExtend_nodup _ _
        (researchSchedule1_pids_nodup none) hgp ?_
      intro q _ hq
      simp [researchSchedule1, pidsOf] at hq
    · intro k hk
      rcases keysOf_mapExtend_subset _ _ k hk with hb | ha
      · simp [researchSchedule1, keysOf] at hb
      · have := hgpre k ha
        simp only [researchUsed1] at this
        exact this
    · intro k a ha
      rw [mapGet_mapExtend _ _ hgk] at ha
      split at ha
      · rename_i v hga
        have hva : v = a := Option.some.inj ha
        exact hgagree k a (hva ▸ hga)
      · simp [researchSchedule1, mapGet] at ha
  | some x =>
    simp only [Option.map_some']
    have hg := generic_spec
      (entries.filter (fun e => e.player_id != x.player_id))
      (fun e => e.wants_research) (fun e => e.research_available_slots)
      (fun e => e.research_score) (researchUsed1 (some x) pre)
      (if 1 ∈ researchUsed1 (some x) pre then [1] else [])
      (double_filter_pids_nodup entries _ _ hnd)
    obtain ⟨hgk, hgp, hgpre, hgagree, hgsub, _, _⟩ := hg
    have hfilter_ne : ∀ q ∈ ((entries.filter
        (fun e => e.player_id != x.player_id)).filter
        (fun e => e.wants_research &&
          !(e.research_available_slots).isEmpty)).map
          AppointmentEntry.player_id,
        q ≠ x.player_id := by
      intro q hq
      rcases List.mem_map.mp hq with ⟨e, he, hpe⟩
      have he1 := (List.mem_filter.mp he).1
      have hpred := (List.mem_filter.mp he1).2
      rw [bne_iff_ne] at hpred
      rw [← hpe]
      exact hpred
    refine ⟨?_, ?_, ?_, ?_⟩
    · exact keysOf_mapExtend_nodup _ _ (researchSchedule1_keys_nodup (some x))
    · refine pidsOf_mapExtend_nodup _ _
        (researchSchedule1_pids_nodup (some x)) hgp ?_
      intro q hq hc
      simp only [researchSchedule1, pidsOf, List.map_cons, List.map_nil]
        at hc
      rw [List.mem_singleton] at hc
      exact hfilter_ne q (hgsub q hq) hc
    · intro k hk
      rcases keysOf_mapExtend_subset _ _ k hk with hb | ha
      · simp only [researchSchedule1, keysOf, List.map_cons, List.map_nil]
          at hb
        rw [List.mem_singleton] at hb
        rw [hb]
        exact (researchSeat_props entries cons_sched pre x hseat).2.2
      · have := hgpre k ha
        simp only [researchUsed1] at this
        intro hc
        exact this (List.mem_cons_of_mem _ hc)
    · intro k a ha
      rw [mapGet_mapExtend _ _ hgk] at ha
      split at ha
      · rename_i v hga
        have hva : v = a := Option.some.inj ha
        exact hgagree k a (hva ▸ hga)
      · exact researchSchedule1_agree (some x) k a ha

theorem research_link (entries : List AppointmentEntry)
    (cons_sched : DaySchedule) (pre : List Nat) (ls : Nat)
    (ca : ScheduledAppointment) (X : AppointmentEntry)
    (hnd : (entries.map AppointmentEntry.player_id).Nodup)
    (hmax : (keysOf cons_sched.appointments).max? = some ls)
    (hca : mapGet cons_sched.appointments ls = some ca)
    (hX : entries.find? (fun e => e.player_id == ca.player_id) = some X)
    (hwr : X.wants_research = true)
    (h1 : 1 ∈ X.research_available_slots)
    (hpre : 1 ∉ pre) :
    mapGet (schedule_research_day_with_locked entries cons_sched
      pre).appointments 1 =
      some ⟨X.player_id, X.name, X.alliance, 1, X.research_score⟩ ∧
    (∀ k a, mapGet (schedule_research_day_with_locked entries cons_sched
      pre).appointments k = some a → a.player_id = X.player_id → k = 1) ∧
    X.player_id ∉
      (schedule_research_day_with_locked entries cons_sched pre).unassigned := by
  have hseat : researchSeat entries cons_sched pre = some X := by
    unfold researchSeat
    simp only [hmax, hca, hX]
    simp [hwr, h1, hpre]
  simp only [schedule_research_day_with_locked]
  rw [hseat]
  simp only [Option.map_some']
  have hg := generic_spec
    (entries.filter (fun e => e.player_id != X.player_id))
    (fun e => e.wants_research) (fun e => e.research_available_slots)
    (fun e => e.research_score) (researchUsed1 (some X) pre)
    (if 1 ∈ researchUsed1 (some X) pre then [1] else [])
    (double_filter_pids_nodup entries _ _ hnd)
  obtain ⟨hgk, _hgp, hgpre, _hgagree, hgsub, hguna, _⟩ := hg
  have hfilter_ne : ∀ q ∈ ((entries.filter
      (fun e => e.player_id != X.player_id)).filter
      (fun e => e.wants_research &&
        !(e.research_available_slots).isEmpty)).map
        AppointmentEntry.player_id,
      q ≠ X.player_id := by
    intro q hq
    rcases List.mem_map.mp hq with ⟨e, he, hpe⟩
    have he1 := (List.mem_filter.mp he).1
    have hpred := (List.mem_filter.mp he1).2
    rw [bne_iff_ne] at hpred
    rw [← hpe]
    exact hpred
  have hone_used : (1 : Nat) ∈ researchUsed1 (some X) pre := by
    simp [researchUsed1]
  have hone_not_key : (1 : Nat) ∉ keysOf (schedule_day_generic_with_locked_slots
      (entries.filter (fun e => e.player_id != X.player_id))
      (fun e => e.wants_research) (fun e => e.research_available_slots)
      (fun e => e.research_score) (researchUsed1 (some X) pre)
      (if 1 ∈ researchUsed1 (some X) pre then [1] else [])).appointments := by
    intro hc
    exact hgpre 1 hc hone_used
  have hone_none : mapGet (schedule_day_generic_with_locked_slots
      (entries.filter (fun e => e.player_id != X.player_id))
      (fun e => e.wants_research) (fun e => e.research_available_slots)
      (fun e => e.research_score) (researchUsed1 (some X) pre)
      (if 1 ∈ researchUsed1 (some X) pre then [1] else [])).appointments 1 =
      none := (mapGet_eq_none_iff _ _).mpr hone_not_key
  refine ⟨?_, ?_, ?_⟩
  · rw [mapGet_mapExtend _ _ hgk, hone_none]
    simp [researchSchedule1, mapGet_cons]
  · intro k a ha hpid
    rw [mapGet_mapExtend _ _ hgk] at ha
    split at ha
    · rename_i v hga
      have hva : v = a := Option.some.inj ha
      exfalso
      apply hfilter_ne a.player_id
        (hgsub _ (hva ▸ mem_pidsOf_of_mapGet _ _ _ hga))
      exact hpid
    · simp only [researchSchedule1] at ha
      rw [mapGet_cons] at ha
      by_cases hk : 1 = k
      · exact hk.symm
      · rw [if_neg hk] at ha
        simp [mapGet] at ha
  · intro hc
    exact hfilter_ne _ (hguna _ hc) rfl

/-! ### Unconditional run-invariant layer -/

theorem bsteal_update (P : List Nat) (st : SchedState)
    (entry : AppointmentEntry) (score : Nat) (rslot : Nat)
    (bappt : ScheduledAppointment) (chain : List Move)
    (hinv : BInv P st)
    (hget : mapGet st.schedule rslot = some bappt)
    (hok : ChainOK st.schedule st.used chain)
    (hnd : (chain.map Move.player_id).Nodup)
    (hhead : ∃ m0 rest, chain = m0 :: rest ∧ Move.player_id m0 =
      bappt.player_id ∧ Move.from_slot m0 = rslot) :
    BInv P
      ⟨mapInsert (apply_move_chain chain st.schedule st.used).schedule rslot
        (mkAppt entry rslot score),
       rslot :: (apply_move_chain chain st.schedule st.used).used,
       st.unassigned⟩ := by
  obtain ⟨m0, crest, hchain, hm0pid, hm0from⟩ := hhead
  have hmaster := apply_chain_master st.schedule st.used chain hok
    hinv.keys_nodup hinv.keys_used hnd m0 (by rw [hchain]; rfl)
  obtain ⟨hA, hB, hC, hD, hE⟩ := hmaster
  rw [hm0from] at hB hC
  have happlied_keys_nodup := apply_move_chain_keys_nodup chain st.schedule
    st.used hinv.keys_nodup
  have happlied_keys_used := apply_move_chain_keys_used chain st.schedule
    st.used hinv.keys_used
  have happlied_agree := apply_move_chain_slot_agree chain st.schedule st.used
    hinv.slot_agree
  have hrslot_keys : rslot ∈ keysOf st.schedule :=
    mem_keysOf_of_mapGet _ _ _ hget
  have hrslot_notP : rslot ∉ P := hinv.keys_pre rslot hrslot_keys
  obtain ⟨lt, hlt, hltnu⟩ := chainOK_lastTo_not_used st.schedule st.used
    chain hok
  refine ⟨?_, ?_, ?_, ?_, ?_⟩
  · exact keysOf_nodup_mapInsert _ _ _ happlied_keys_nodup
  · intro k hk
    rw [keysOf_mapInsert] at hk
    rcases List.mem_cons.mp hk with he | hmem
    · exact he ▸ List.mem_cons_self _ _
    · refine List.mem_cons_of_mem _ ?_
      exact happlied_keys_used k ((keysOf_mapRemove_sublist _ _).subset hmem)
  · intro s hs
    have hs_used := hinv.pre_used s hs
    have hs_ne : s ≠ rslot := fun he => hrslot_notP (he ▸ hs)
    refine List.mem_cons_of_mem _ ?_
    exact (hC s).mpr (Or.inl ⟨hs_used, hs_ne⟩)
  · intro k hk
    rw [keysOf_mapInsert] at hk
    rcases List.mem_cons.mp hk with he | hmem
    · exact he ▸ hrslot_notP
    · have hk' := (keysOf_mapRemove_sublist _ _).subset hmem
      rcases hE k hk' with hks | hklt
      · exact hinv.keys_pre k hks
      · rw [hlt] at hklt
        have hlk : lt = k := Option.some.inj hklt
        intro hc
        exact hltnu (hlk ▸ hinv.pre_used k hc)
  · intro k a ha
    rw [mapGet_mapInsert] at ha
    by_cases hk : rslot = k
    · rw [if_pos hk] at ha
      have hva := Option.some.inj ha
      rw [← hva, ← hk]
      rfl
    · rw [if_neg hk] at ha
      exact happlied_agree k a ha

theorem bfree_insert (P : List Nat) (st : SchedState)
    (entry : AppointmentEntry) (slot score : Nat) (hinv : BInv P st)
    (hfree : slot ∉ st.used) :
    BInv P
      ⟨mapInsert st.schedule slot (mkAppt entry slot score),
       slot :: st.used, st.unassigned⟩ := by
  refine ⟨?_, ?_, ?_, ?_, ?_⟩
  · exact keysOf_nodup_mapInsert _ _ _ hinv.keys_nodup
  · intro k hk
    rw [keysOf_mapInsert] at hk
    rcases List.mem_cons.mp hk with he | hmem
    · exact he ▸ List.mem_cons_self _ _
    · exact List.mem_cons_of_mem _
        (hinv.keys_used k ((keysOf_mapRemove_sublist _ _).subset hmem))
  · intro s hs
    exact List.mem_cons_of_mem _ (hinv.pre_used s hs)
  · intro k hk
    rw [keysOf_mapInsert] at hk
    rcases List.mem_cons.mp hk with he | hmem
    · rw [he]
      intro hc
      exact hfree (hinv.pre_used _ hc)
    · exact hinv.keys_pre k
        ((keysOf_mapRemove_sublist _ _).subset hmem)
  · intro k a ha
    rw [mapGet_mapInsert] at ha
    by_cases hk : slot = k
    · rw [if_pos hk] at ha
      have hva := Option.some.inj ha
      rw [← hva, ← hk]
      rfl
    · rw [if_neg hk] at ha
      exact hinv.slot_agree k a ha

theorem bstealLoop (entry : AppointmentEntry) (score : Nat)
    (gav : AppointmentEntry → List Nat) (emap : EntryMap) (locked : List Nat)
    (P : List Nat) :
    ∀ (blocking : List (Nat × String × Nat)) (st st' : SchedState),
    BInv P st →
    stealLoop entry score gav emap locked blocking st = some st' →
    BInv P st' := by
  intro blocking
  induction blocking with
  | nil =>
    intro st st' _ h
    simp [stealLoop] at h
  | cons b rest ih =>
    intro st st' hinv h
    obtain ⟨rslot, bpid, bscore⟩ := b
    simp only [stealLoop] at h
    split at h
    · exact ih st st' hinv h
    · rename_i bappt hget
      split at h
      · exact ih st st' hinv h
      · rename_i bentry hemap
        split at h
        · exact ih st st' hinv h
        · rename_i chain hchain
          rw [find_move_chain] at hchain
          have hprod := find_move_chain_fuel_chainOK _ _ _ _ _ _ _ _ _ _ _ _
            _ _ hget rfl hchain
          have hpids := find_move_chain_fuel_pids _ _ _ _ _ _ _ _ _ _ _ _ _
            (List.mem_cons_self _ _) hchain
          obtain ⟨hok, hhead⟩ := hprod
          have hupd := bsteal_update P st entry score rslot bappt chain hinv
            hget hok hpids.1 hhead
          have hst' : st' =
              ⟨mapInsert (apply_move_chain chain st.schedule st.used).schedule
                rslot (mkAppt entry rslot score),
               rslot :: (apply_move_chain chain st.schedule st.used).used,
               st.unassigned⟩ := (Option.some.inj h).symm
          rw [hst']
          exact hupd

theorem bconsStealLoop (entry : AppointmentEntry) (emap : EntryMap)
    (last_slot : Nat) (P : List Nat) :
    ∀ (blocking : List (Nat × String × Nat × Nat)) (st st' : SchedState),
    BInv P st →
    consStealLoop entry emap last_slot blocking st = some st' →
    BInv P st' := by
  intro blocking
  induction blocking with
  | nil =>
    intro st st' _ h
    simp [consStealLoop] at h
  | cons b rest ih =>
    intro st st' hinv h
    obtain ⟨rslot, bpid, bscore, bcomb⟩ := b
    simp only [consStealLoop] at h
    split at h
    · exact ih st st' hinv h
    · split at h
      · exact ih st st' hinv h
      · rename_i bappt hget
        split at h
        · exact ih st st' hinv h
        · rename_i bentry hemap
          split at h
          · exact ih st st' hinv h
          · rename_i chain hchain
            rw [find_move_chain] at hchain
            have hprod := find_move_chain_fuel_chainOK _ _ _ _ _ _ _ _ _ _ _
              _ _ _ hget rfl hchain
            have hpids := find_move_chain_fuel_pids _ _ _ _ _ _ _ _ _ _ _ _
              _ (List.mem_cons_self _ _) hchain
            obtain ⟨hok, hhead⟩ := hprod
            have hupd := bsteal_update P st entry entry.construction_score
              rslot bappt chain hinv hget hok hpids.1 hhead
            have hst' : st' =
                ⟨mapInsert
                  (apply_move_chain chain st.schedule st.used).schedule rslot
                  (mkAppt entry rslot entry.construction_score),
                 rslot :: (apply_move_chain chain st.schedule st.used).used,
                 st.unassigned⟩ := (Option.some.inj h).symm
            rw [hst']
            exact hupd

theorem bprocessEntry (gav : AppointmentEntry → List Nat)
    (score : AppointmentEntry → Nat) (rankings : Nat → Nat) (emap : EntryMap)
    (locked : List Nat) (P : List Nat) (st : SchedState)
    (entry : AppointmentEntry) (hinv : BInv P st) :
    BInv P (processEntry gav score rankings emap locked st entry) := by
  simp only [processEntry]
  split
  · rename_i p hfind
    have hfree : p.1 ∉ st.used := by
      have := List.find?_some hfind
      simp only [decide_eq_true_eq] at this
      exact this
    exact bfree_insert P st entry p.1 (score entry) hinv hfree
  · split
    · rename_i st' hsteal
      exact bstealLoop entry (score entry) gav emap locked P _ st st' hinv
        hsteal
    · exact ⟨hinv.keys_nodup, hinv.keys_used, hinv.pre_used, hinv.keys_pre,
        hinv.slot_agree⟩

theorem bconsProcessEntry (rankings : Nat → Nat) (emap : EntryMap)
    (last_slot : Nat) (P : List Nat) (st : SchedState)
    (entry : AppointmentEntry) (hinv : BInv P st) :
    BInv P (consProcessEntry rankings emap last_slot st entry) := by
  simp only [consProcessEntry]
  split
  · rename_i p hfind
    have hfree : p.1 ∉ st.used := by
      have := List.find?_some hfind
      simp only [decide_eq_true_eq] at this
      exact this
    exact bfree_insert P st entry p.1 entry.construction_score hinv hfree
  · split
    · rename_i st' hsteal
      exact bconsStealLoop entry emap last_slot P _ st st' hinv hsteal
    · exact ⟨hinv.keys_nodup, hinv.keys_used, hinv.pre_used, hinv.keys_pre,
        hinv.slot_agree⟩

theorem bfold (P : List Nat) (step : SchedState → AppointmentEntry →
    SchedState) (hstep : ∀ st e, BInv P st → BInv P (step st e)) :
    ∀ (rem : List AppointmentEntry) (st : SchedState), BInv P st →
    BInv P (rem.foldl step st) := by
  intro rem
  induction rem with
  | nil => exact fun st h => h
  | cons e rest ih =>
    intro st h
    rw [List.foldl_cons]
    exact ih _ (hstep st e h)

theorem generic_binv (entries : List AppointmentEntry)
    (wants : AppointmentEntry → Bool) (gav : AppointmentEntry → List Nat)
    (score : AppointmentEntry → Nat) (pre locked : List Nat) :
    (keysOf (schedule_day_generic_with_locked_slots entries wants gav score
      pre locked).appointments).Nodup ∧
    (∀ k ∈ keysOf (schedule_day_generic_with_locked_slots entries wants gav
      score pre locked).appointments, k ∉ pre) ∧
    (∀ k a, mapGet (schedule_day_generic_with_locked_slots entries wants gav
      score pre locked).appointments k = some a → a.slot = k) := by
  have h0 : BInv pre (⟨[], pre, []⟩ : SchedState) := by
    refine ⟨List.nodup_nil, ?_, fun s hs => hs, ?_, ?_⟩
    · intro k hk
      simp [keysOf] at hk
    · intro k hk
      simp [keysOf] at hk
    · intro k a ha
      simp [mapGet] at ha
  have key := bfold pre
    (processEntry gav score
      (calculate_slot_rankings ((entries.filter
        (fun e => wants e && !(gav e).isEmpty)).map gav))
      (buildEntryMap (sortByKeyDesc score (entries.filter
        (fun e => wants e && !(gav e).isEmpty))))
      locked)
    (fun st e hinv => bprocessEntry gav score
      (calculate_slot_rankings ((entries.filter
        (fun e => wants e && !(gav e).isEmpty)).map gav))
      (buildEntryMap (sortByKeyDesc score (entries.filter
        (fun e => wants e && !(gav e).isEmpty))))
      locked pre st e hinv)
    (sortByKeyDesc score (entries.filter
      (fun e => wants e && !(gav e).isEmpty)))
    (⟨[], pre, []⟩ : SchedState) h0
  exact ⟨key.keys_nodup, key.keys_pre, key.slot_agree⟩

theorem construction_binv (entries : List AppointmentEntry)
    (pre : List Nat) :
    (keysOf (schedule_construction_day_with_locked entries
      pre).appointments).Nodup ∧
    (∀ k ∈ keysOf (schedule_construction_day_with_locked entries
      pre).appointments, k ∉ pre) ∧
    (∀ k a, mapGet (schedule_construction_day_with_locked entries
      pre).appointments k = some a → a.slot = k) := by
  have hinit : BInv pre
      ⟨consSchedule0 (consLastSlot (consCandidates entries))
        (consWinner (consLastSlot (consCandidates entries))
          (consPrio (consLastSlot (consCandidates entries))
            (consCandidates entries)) pre),
       consUsed0 (consLastSlot (consCandidates entries))
        (consWinner (consLastSlot (consCandidates entries))
          (consPrio (consLastSlot (consCandidates entries))
            (consCandidates entries)) pre) pre, []⟩ := by
    have h := cons_init_inv (consLastSlot (consCandidates entries))
      (consPrio (consLastSlot (consCandidates entries))
        (consCandidates entries)) pre
    exact ⟨h.keys_nodup, h.keys_used, h.pre_used, h.keys_pre, h.slot_agree⟩
  have key := bfold pre
    (consProcessEntry
      (calculate_slot_rankings ((consCandidates entries).map
        (fun e => e.construction_available_slots)))
      (buildEntryMap (consCandidates entries))
      (consLastSlot (consCandidates entries)))
    (fun st e hinv => bconsProcessEntry
      (calculate_slot_rankings ((consCandidates entries).map
        (fun e => e.construction_available_slots)))
      (buildEntryMap (consCandidates entries))
      (consLastSlot (consCandidates entries)) pre st e hinv)
    (sortByKeyDesc (fun e => e.construction_score)
      (consRemaining0 (consLastSlot (consCandidates entries))
        (consWinner (consLastSlot (consCandidates entries))
          (consPrio (consLastSlot (consCandidates entries))
            (consCandidates entries)) pre)
        (consPrio (consLastSlot (consCandidates entries))
          (consCandidates entries))
        (consSchedule0 (consLastSlot (consCandidates entries))
          (consWinner (consLastSlot (consCandidates entries))
            (consPrio (consLastSlot (consCandidates entries))
              (consCandidates entries)) pre))
        (consUsed0 (consLastSlot (consCandidates entries))
          (consWinner (consLastSlot (consCandidates entries))
            (consPrio (consLastSlot (consCandidates entries))
              (consCandidates entries)) pre) pre) ++
       consOther (consLastSlot (consCandidates entries))
        (consCandidates entries)))
    _ hinit
  exact ⟨key.keys_nodup, key.keys_pre, key.slot_agree⟩

theorem research_binv (entries : List AppointmentEntry)
    (cons_sched : DaySchedule) (pre : List Nat) :
    (keysOf (schedule_research_day_with_locked entries cons_sched
      pre).appointments).Nodup ∧
    (∀ k ∈ keysOf (schedule_research_day_with_locked entries cons_sched
      pre).appointments, k ∉ pre) ∧
    (∀ k a, mapGet (schedule_research_day_with_locked entries cons_sched
      pre).appointments k = some a → a.slot = k) := by
  simp only [schedule_research_day_with_locked]
  cases hseat : researchSeat entries cons_sched pre with
  | none =>
    simp only [Option.map_none']
    have hg := generic_binv (entries.filter (fun _ => true))
      (fun e => e.wants_research) (fun e => e.research_available_slots)
      (fun e => e.research_score) (researchUsed1 none pre)
      (if 1 ∈ researchUsed1 none pre then [1] else [])
    obtain ⟨hgk, hgpre, hgagree⟩ := hg
    refine ⟨?_, ?_, ?_⟩
    · exact keysOf_mapExtend_nodup _ _ (researchSchedule1_keys_nodup none)
    · intro k hk
      rcases keysOf_mapExtend_subset _ _ k hk with hb | ha
      · simp [researchSchedule1, keysOf] at hb
      · have hthis := hgpre k ha
        simp only [researchUsed1] at hthis
        exact hthis
    · intro k a ha
      rw [mapGet_mapExtend _ _ hgk] at ha
      split at ha
      · rename_i v hga
        have hva : v = a := Option.some.inj ha
        exact hgagree k a (hva ▸ hga)
      · simp [researchSchedule1, mapGet] at ha
  | some x =>
    simp only [Option.map_some']
    have hg := generic_binv
      (entries.filter (fun e => e.player_id != x.player_id))
      (fun e => e.wants_research) (fun e => e.research_available_slots)
      (fun e => e.research_score) (researchUsed1 (some x) pre)
      (if 1 ∈ researchUsed1 (some x) pre then [1] else [])
    obtain ⟨hgk, hgpre, hgagree⟩ := hg
    refine ⟨?_, ?_, ?_⟩
    · exact keysOf_mapExtend_nodup _ _ (researchSchedule1_keys_nodup (some x))
    · intro k hk
      rcases keysOf_mapExtend_subset _ _ k hk with hb | ha
      · simp only [researchSchedule1, keysOf, List.map_cons, List.map_nil]
          at hb
        rw [List.mem_singleton] at hb
        rw [hb]
        exact (researchSeat_props entries cons_sched pre x hseat).2.2
      · have hthis := hgpre k ha
        simp only [researchUsed1] at hthis
        intro hc
        exact hthis (List.mem_cons_of_mem _ hc)
    · intro k a ha
      rw [mapGet_mapExtend _ _ hgk] at ha
      split at ha
      · rename_i v hga
        have hva : v = a := Option.some.inj ha
        exact hgagree k a (hva ▸ hga)
      · exact researchSchedule1_agree (some x) k a ha

/-! ### Combined-score gate lemmas -/

theorem consGateSkip_true (entry : AppointmentEntry) (emap : EntryMap)
    (last_slot : Nat) (sched : Schedule)
    (bappt : ScheduledAppointment) (bentry : AppointmentEntry)
    (hget : mapGet sched last_slot = some bappt)
    (hemap : emapGet emap bappt.player_id = some bentry)
    (hle : combinedScoreOf entry ≤ combinedScoreOf bentry) :
    consGateSkip entry emap last_slot last_slot sched = true := by
  simp [consGateSkip, hget, hemap, hle]

theorem consGateSkip_false (entry : AppointmentEntry) (emap : EntryMap)
    (last_slot : Nat) (sched : Schedule)
    (bappt : ScheduledAppointment) (bentry : AppointmentEntry)
    (hget : mapGet sched last_slot = some bappt)
    (hemap : emapGet emap bappt.player_id = some bentry)
    (hgt : combinedScoreOf bentry < combinedScoreOf entry) :
    consGateSkip entry emap last_slot last_slot sched = false := by
  have hnle : ¬ combinedScoreOf entry ≤ combinedScoreOf bentry :=
    Nat.not_le.mpr hgt
  simp [consGateSkip, hget, hemap, hnle]

/-! ### Claim theorems -/

/-- C1 (counterexample): the claim that on Example A's input (candidate A,
score 100, availability slots 1 and 5; candidate B, score 50, availability
slot 5; no locked or pre-locked slots) the generic day assigner returns the
appointment map exactly `[slot 5 -> A]` with unassigned list `[B]` is false
on the code: B's contention triggers a chain rooted at occupant A, whose
availability contains the free slot 1, so the run ends with A in slot 1, B
in slot 5 and nobody unassigned. -/
theorem C1_example_A_counterexample :
    ¬ ((∀ k, mapGet (schedule_day_generic_with_locked_slots [exA, exB]
        (fun e => e.wants_troops) (fun e => e.troops_available_slots)
        (fun e => e.troops_speedups) [] []).appointments k =
        mapGet [(5, mkAppt exA 5 100)] k) ∧
      (schedule_day_generic_with_locked_slots [exA, exB]
        (fun e => e.wants_troops) (fun e => e.troops_available_slots)
        (fun e => e.troops_speedups) [] []).unassigned = ["B"]) := by
  intro h
  exact absurd h.2 (by decide)

/-- C1 (amended): on Example A's input the generic day assigner returns the
appointment map `[slot 5 -> B, slot 1 -> A]` (B steals slot 5 via the
one-move eviction chain that relocates A to its free alternate slot 1) and
an empty unassigned list. -/
theorem C1_example_A_amended :
    schedule_day_generic_with_locked_slots [exA, exB]
      (fun e => e.wants_troops) (fun e => e.troops_available_slots)
      (fun e => e.troops_speedups) [] [] =
    ⟨[(5, mkAppt exB 5 50), (1, mkAppt exA 1 100)], []⟩ := by
  decide

/-- C2: for every candidate list with pairwise distinct `player_id`s (the
data model's precondition) and all lock sets, the `DaySchedule` returned by
each of the three day schedulers (generic/troops, construction, research)
has pairwise distinct slot keys and pairwise distinct appointment
`player_id`s, including after eviction chains. -/
theorem C2_no_double_booking (entries : List AppointmentEntry)
    (wants : AppointmentEntry → Bool) (gav : AppointmentEntry → List Nat)
    (score : AppointmentEntry → Nat)
    (pre_locked locked pre_c pre_r : List Nat) (cons_sched : DaySchedule)
    (hnd : (entries.map AppointmentEntry.player_id).Nodup) :
    ((keysOf (schedule_day_generic_with_locked_slots entries wants gav score
        pre_locked locked).appointments).Nodup ∧
     (pidsOf (schedule_day_generic_with_locked_slots entries wants gav score
        pre_locked locked).appointments).Nodup) ∧
    ((keysOf (schedule_construction_day_with_locked entries
        pre_c).appointments).Nodup ∧
     (pidsOf (schedule_construction_day_with_locked entries
        pre_c).appointments).Nodup) ∧
    ((keysOf (schedule_research_day_with_locked entries cons_sched
        pre_r).appointments).Nodup ∧
     (pidsOf (schedule_research_day_with_locked entries cons_sched
        pre_r).appointments).Nodup) := by
  have h1 := generic_spec entries wants gav score pre_locked locked
    (hnd.sublist ((List.filter_sublist _).map _))
  have h2 := construction_spec entries pre_c
    (hnd.sublist ((List.filter_sublist _).map _))
  have h3 := research_spec entries cons_sched pre_r hnd
  exact ⟨⟨h1.1, h1.2.1⟩, ⟨h2.1, h2.2.1⟩, ⟨h3.1, h3.2.1⟩⟩

/-- C2 (witness): the distinct-`player_id` hypothesis and the conclusion at
the concrete Example A candidate list. -/
theorem C2_no_double_booking_witness :
    (([exA, exB].map AppointmentEntry.player_id).Nodup) ∧
    (((keysOf (schedule_day_generic_with_locked_slots [exA, exB]
        (fun e => e.wants_troops) (fun e => e.troops_available_slots)
        (fun e => e.troops_speedups) [] []).appointments).Nodup ∧
      (pidsOf (schedule_day_generic_with_locked_slots [exA, exB]
        (fun e => e.wants_troops) (fun e => e.troops_available_slots)
        (fun e => e.troops_speedups) [] []).appointments).Nodup) ∧
     ((keysOf (schedule_construction_day_with_locked [exA, exB]
        []).appointments).Nodup ∧
      (pidsOf (schedule_construction_day_with_locked [exA, exB]
        []).appointments).Nodup) ∧
     ((keysOf (schedule_research_day_with_locked [exA, exB] ⟨[], []⟩
        []).appointments).Nodup ∧
      (pidsOf (schedule_research_day_with_locked [exA, exB] ⟨[], []⟩
        []).appointments).Nodup)) :=
  ⟨by decide,
    C2_no_double_booking [exA, exB] (fun e => e.wants_troops)
      (fun e => e.troops_available_slots) (fun e => e.troops_speedups)
      [] [] [] [] ⟨[], []⟩ (by decide)⟩

/-- C3: whenever `find_move_chain` is invoked with depth 1 and maximum
depth 5 (as every caller does) and returns a chain, that chain contains at
most 5 moves. -/
theorem C3_depth_bound (player_id : String) (current_slot : Nat)
    (available_slots : List Nat) (schedule : Schedule)
    (used_slots : List Nat) (entry_map : EntryMap)
    (get_available_slots : AppointmentEntry → List Nat)
    (visited : List String) (locked_slots : List Nat) (chain : List Move)
    (h : find_move_chain player_id current_slot available_slots schedule
      used_slots entry_map get_available_slots 1 5 visited locked_slots =
      some chain) :
    chain.length ≤ 5 := by
  rw [find_move_chain] at h
  have hlen := find_move_chain_fuel_length _ _ _ _ _ _ _ _ _ _ _ _ _ h
  omega

/-- C3 (witness): a concrete depth-1 invocation returning a one-move chain,
with the bound obtained from the theorem. -/
theorem C3_depth_bound_witness :
    find_move_chain "A" 5 [1, 5] [(5, mkAppt exA 5 100)] [5] []
      (fun e => e.troops_available_slots) 1 5 ["A"] [] =
      some [⟨"A", 5, 1⟩] ∧
    ([(⟨"A", 5, 1⟩ : Move)] : List Move).length ≤ 5 :=
  ⟨by decide,
    C3_depth_bound "A" 5 [1, 5] [(5, mkAppt exA 5 100)] [5] []
      (fun e => e.troops_available_slots) ["A"] [] [⟨"A", 5, 1⟩]
      (by decide)⟩

/-- C4: whenever `find_move_chain` is invoked with the root occupant's
`player_id` already in the visited set (as every caller ensures) and
returns a chain, the `player_id`s of the chain's moves are pairwise
distinct. -/
theorem C4_cycle_freedom (player_id : String) (current_slot : Nat)
    (available_slots : List Nat) (schedule : Schedule)
    (used_slots : List Nat) (entry_map : EntryMap)
    (get_available_slots : AppointmentEntry → List Nat)
    (depth max_depth : Nat) (visited : List String)
    (locked_slots : List Nat) (chain : List Move)
    (hvis : player_id ∈ visited)
    (h : find_move_chain player_id current_slot available_slots schedule
      used_slots entry_map get_available_slots depth max_depth visited
      locked_slots = some chain) :
    (chain.map Move.player_id).Nodup := by
  rw [find_move_chain] at h
  exact (find_move_chain_fuel_pids _ _ _ _ _ _ _ _ _ _ _ _ _ hvis h).1

/-- C4 (witness): a concrete invocation with the root occupant visited,
whose returned chain has pairwise distinct `player_id`s. -/
theorem C4_cycle_freedom_witness :
    "A" ∈ ["A"] ∧
    find_move_chain "A" 5 [1, 5] [(5, mkAppt exA 5 100)] [5] []
      (fun e => e.troops_available_slots) 1 5 ["A"] [] =
      some [⟨"A", 5, 1⟩] ∧
    (([(⟨"A", 5, 1⟩ : Move)] : List Move).map Move.player_id).Nodup :=
  ⟨by decide, by decide,
    C4_cycle_freedom "A" 5 [1, 5] [(5, mkAppt exA 5 100)] [5] []
      (fun e => e.troops_available_slots) 1 5 ["A"] [] [⟨"A", 5, 1⟩]
      (by decide) (by decide)⟩

/-- C5: lock invariants. (i) No move of a chain returned by
`find_move_chain` has its `from_slot` in the locked-slot set. (ii) For any
set `P` of slots that are all used and hold no appointment at search time
(as the pre-locked set does throughout a scheduler run), no move's
`to_slot` lies in `P`; and the appointment maps returned by the three day
schedulers contain no pre-locked key. -/
theorem C5_lock_invariants :
    (∀ (player_id : String) (current_slot : Nat)
      (available_slots : List Nat) (schedule : Schedule)
      (used_slots : List Nat) (entry_map : EntryMap)
      (get_available_slots : AppointmentEntry → List Nat)
      (depth max_depth : Nat) (visited : List String)
      (locked_slots : List Nat) (chain : List Move),
      find_move_chain player_id current_slot available_slots schedule
        used_slots entry_map get_available_slots depth max_depth visited
        locked_slots = some chain →
      ∀ m ∈ chain, Move.from_slot m ∉ locked_slots) ∧
    (∀ (player_id : String) (current_slot : Nat)
      (available_slots : List Nat) (schedule : Schedule)
      (used_slots : List Nat) (entry_map : EntryMap)
      (get_available_slots : AppointmentEntry → List Nat)
      (depth max_depth : Nat) (visited : List String)
      (locked_slots : List Nat) (chain : List Move) (P : List Nat),
      find_move_chain player_id current_slot available_slots schedule
        used_slots entry_map get_available_slots depth max_depth visited
        locked_slots = some chain →
      (∀ s ∈ P, s ∈ used_slots) →
      (∀ k a, mapGet schedule k = some a → k ∉ P) →
      ∀ m ∈ chain, Move.to_slot m ∉ P) ∧
    (∀ (entries : List AppointmentEntry) (wants : AppointmentEntry → Bool)
      (gav : AppointmentEntry → List Nat) (score : AppointmentEntry → Nat)
      (pre locked : List Nat),
      ∀ k ∈ keysOf (schedule_day_generic_with_locked_slots entries wants
        gav score pre locked).appointments, k ∉ pre) ∧
    (∀ (entries : List AppointmentEntry) (pre : List Nat),
      ∀ k ∈ keysOf (schedule_construction_day_with_locked entries
        pre).appointments, k ∉ pre) ∧
    (∀ (entries : List AppointmentEntry) (cons_sched : DaySchedule)
      (pre : List Nat),
      ∀ k ∈ keysOf (schedule_research_day_with_locked entries cons_sched
        pre).appointments, k ∉ pre) := by
  refine ⟨?_, ?_, ?_, ?_, ?_⟩
  · intro pid cur avail sched used emap gav depth md vis locked chain h
    rw [find_move_chain] at h
    exact find_move_chain_fuel_from_not_locked _ _ _ _ _ _ _ _ _ _ _ _ _ h
  · intro pid cur avail sched used emap gav depth md vis locked chain P h
      hPused hPfree m hm
    rw [find_move_chain] at h
    have hto := find_move_chain_fuel_to_ok _ _ _ _ _ _ _ _ _ _ _ _ _ h m hm
    rcases hto with hto | ⟨a, ha⟩
    · intro hc
      exact hto (hPused _ hc)
    · exact hPfree _ a ha
  · intro entries wants gav score pre locked
    exact (generic_binv entries wants gav score pre locked).2.1
  · intro entries pre
    exact (construction_binv entries pre).2.1
  · intro entries cons_sched pre
    exact (research_binv entries cons_sched pre).2.1

/-- C5 (witness): the chain conjuncts of the theorem applied at a concrete
invocation (locked set `[7]`, pre-locked style set `[5]`). -/
theorem C5_lock_invariants_witness :
    find_move_chain "A" 5 [1, 5] [(5, mkAppt exA 5 100)] [5, 8] []
      (fun e => e.troops_available_slots) 1 5 ["A"] [7] =
      some [⟨"A", 5, 1⟩] ∧
    (∀ m ∈ ([⟨"A", 5, 1⟩] : List Move), Move.from_slot m ∉ ([7] : List Nat)) ∧
    (∀ m ∈ ([⟨"A", 5, 1⟩] : List Move), Move.to_slot m ∉ ([8] : List Nat)) :=
  ⟨by decide,
    C5_lock_invariants.1 "A" 5 [1, 5] [(5, mkAppt exA 5 100)] [5, 8] []
      (fun e => e.troops_available_slots) 1 5 ["A"] [7] [⟨"A", 5, 1⟩]
      (by decide),
    C5_lock_invariants.2.1 "A" 5 [1, 5] [(5, mkAppt exA 5 100)] [5, 8] []
      (fun e => e.troops_available_slots) 1 5 ["A"] [7] [⟨"A", 5, 1⟩] [8]
      (by decide) (by decide)
      (by
        intro k a h
        have hk := mem_keysOf_of_mapGet _ _ _ h
        simp [keysOf] at hk
        simp [hk])⟩

/-- C6: in the construction steal loop, when the contested slot is the
day's maximum slot and its occupant and their candidate record are found,
the candidate initiates an eviction-chain attempt against the occupant
exactly when the candidate's combined score (construction score plus
research score when they want research and list research slot 1) strictly
exceeds the occupant's combined score; otherwise that slot is skipped and
the loop falls through to the next contested slot. -/
theorem C6_combined_score_gating (entry : AppointmentEntry)
    (entry_map : EntryMap) (last_slot : Nat) (bpid : String)
    (bscore bcomb : Nat) (rest : List (Nat × String × Nat × Nat))
    (st : SchedState) (bappt : ScheduledAppointment)
    (bentry : AppointmentEntry)
    (hget : mapGet st.schedule last_slot = some bappt)
    (hemap : emapGet entry_map bappt.player_id = some bentry) :
    (combinedScoreOf entry ≤ combinedScoreOf bentry →
      consStealLoop entry entry_map last_slot
        ((last_slot, bpid, bscore, bcomb) :: rest) st =
      consStealLoop entry entry_map last_slot rest st) ∧
    (combinedScoreOf bentry < combinedScoreOf entry →
      consStealLoop entry entry_map last_slot
        ((last_slot, bpid, bscore, bcomb) :: rest) st =
      match find_move_chain bappt.player_id last_slot
          bentry.construction_available_slots st.schedule st.used entry_map
          (fun e => e.construction_available_slots) 1 5
          [bappt.player_id] [] with
      | none => consStealLoop entry entry_map last_slot rest st
      | some move_chain =>
        some
          { schedule :=
              mapInsert (apply_move_chain move_chain st.schedule
                st.used).schedule last_slot
                (mkAppt entry last_slot entry.construction_score)
            used := last_slot ::
              (apply_move_chain move_chain st.schedule st.used).used
            unassigned := st.unassigned }) := by
  constructor
  · intro hle
    have hg := consGateSkip_true entry entry_map last_slot st.schedule bappt
      bentry hget hemap hle
    simp only [consStealLoop]
    rw [if_pos hg]
  · intro hgt
    have hg := consGateSkip_false entry entry_map last_slot st.schedule
      bappt bentry hget hemap hgt
    simp only [consStealLoop]
    rw [hg]
    simp only [Bool.false_eq_true, if_false]
    rw [hget]
    simp [hemap]

/-- C6 (witness): at a concrete state where the challenger's combined score
10 does not exceed the holder's 100, the maximum slot is skipped. -/
theorem C6_combined_score_gating_witness :
    mapGet [(9, mkAppt exD 9 100)] 9 = some (mkAppt exD 9 100) ∧
    emapGet [("D", exD)] "D" = some exD ∧
    combinedScoreOf exC ≤ combinedScoreOf exD ∧
    consStealLoop exC [("D", exD)] 9 [(9, "D", 100, 100)]
      ⟨[(9, mkAppt exD 9 100)], [9], []⟩ =
    consStealLoop exC [("D", exD)] 9 []
      ⟨[(9, mkAppt exD 9 100)], [9], []⟩ :=
  ⟨by decide, by decide, by decide,
    (C6_combined_score_gating exC [("D", exD)] 9 "D" 100 100 []
      ⟨[(9, mkAppt exD 9 100)], [9], []⟩ (mkAppt exD 9 100) exD
      (by decide) (by decide)).1 (by decide)⟩

/-- C7: if candidate X occupies construction's maximum slot, wants
research, lists research slot 1 as available, and slot 1 is not in the
externally supplied pre-locked set, then (for a candidate list with
distinct `player_id`s) the research schedule maps slot 1 to X, X appears
under no other key, and X is not in the research unassigned list. -/
theorem C7_cross_day_link (entries : List AppointmentEntry)
    (cons_sched : DaySchedule) (pre : List Nat) (ls : Nat)
    (ca : ScheduledAppointment) (X : AppointmentEntry)
    (hnd : (entries.map AppointmentEntry.player_id).Nodup)
    (hmax : (keysOf cons_sched.appointments).max? = some ls)
    (hca : mapGet cons_sched.appointments ls = some ca)
    (hX : entries.find? (fun e => e.player_id == ca.player_id) = some X)
    (hwr : X.wants_research = true)
    (h1 : 1 ∈ X.research_available_slots)
    (hpre : 1 ∉ pre) :
    mapGet (schedule_research_day_with_locked entries cons_sched
      pre).appointments 1 =
      some ⟨X.player_id, X.name, X.alliance, 1, X.research_score⟩ ∧
    (∀ k a, mapGet (schedule_research_day_with_locked entries cons_sched
      pre).appointments k = some a → a.player_id = X.player_id → k = 1) ∧
    X.player_id ∉
      (schedule_research_day_with_locked entries cons_sched
        pre).unassigned :=
  research_link entries cons_sched pre ls ca X hnd hmax hca hX hwr h1 hpre

/-- C7 (witness): a concrete construction schedule with R in its maximum
slot 3; R is force-seated into research slot 1. -/
theorem C7_cross_day_link_witness :
    mapGet (schedule_research_day_with_locked [exR]
      ⟨[(3, mkAppt exR 3 50)], []⟩ []).appointments 1 =
      some ⟨"R", "R", "X", 1, 40⟩ :=
  (C7_cross_day_link [exR] ⟨[(3, mkAppt exR 3 50)], []⟩ [] 3
    (mkAppt exR 3 50) exR (by decide) (by decide) (by decide) (by decide)
    (by decide) (by decide) (by decide)).1

/-- C8: `apply_move_chain` processes moves in reverse order, and a move
whose `from_slot` occupant does not carry the move's expected `player_id`
leaves the schedule pointwise unchanged (the occupant is reinserted at
`from_slot`), leaves the used-slot set untouched, emits one diagnostic, and
lets the remaining moves proceed. -/
theorem C8_mismatch_is_nonfatal :
    (∀ (mv : Move) (moves : List Move) (sched : Schedule)
      (used : List Nat),
      apply_move_chain (mv :: moves) sched used =
        applyOneMove mv (apply_move_chain moves sched used)) ∧
    (∀ (mv : Move) (st : ApplyState) (appt : ScheduledAppointment),
      mapGet st.schedule mv.from_slot = some appt →
      appt.player_id ≠ mv.player_id →
      (∀ k, mapGet (applyOneMove mv st).schedule k =
        mapGet st.schedule k) ∧
      (applyOneMove mv st).used = st.used ∧
      (applyOneMove mv st).diags = st.diags ++
        ["Warning: Attempted to move wrong player from slot " ++
          toString mv.from_slot]) := by
  constructor
  · exact apply_move_chain_cons
  · intro mv st appt hget hne
    rw [applyOneMove_diags_mismatch mv st appt hget hne]
    refine ⟨?_, rfl, rfl⟩
    intro k
    rw [mapGet_mapInsert]
    by_cases hk : mv.from_slot = k
    · rw [if_pos hk, ← hk]
      exact hget.symm
    · rw [if_neg hk, mapGet_mapRemove, if_neg hk]

/-- C8 (witness): a concrete mismatching move (expected player B, actual
occupant A) is skipped without touching the schedule or used set, with one
diagnostic emitted. -/
theorem C8_mismatch_is_nonfatal_witness :
    mapGet [(2, mkAppt exA 2 100)] 2 = some (mkAppt exA 2 100) ∧
    (mkAppt exA 2 100).player_id ≠ "B" ∧
    (∀ k, mapGet (applyOneMove ⟨"B", 2, 4⟩
        ⟨[(2, mkAppt exA 2 100)], [2], []⟩).schedule k =
      mapGet [(2, mkAppt exA 2 100)] k) ∧
    (applyOneMove ⟨"B", 2, 4⟩
      ⟨[(2, mkAppt exA 2 100)], [2], []⟩).used = [2] ∧
    (applyOneMove ⟨"B", 2, 4⟩
      ⟨[(2, mkAppt exA 2 100)], [2], []⟩).diags =
      [] ++ ["Warning: Attempted to move wrong player from slot " ++
        toString (2 : Nat)] :=
  ⟨by decide, by decide,
    C8_mismatch_is_nonfatal.2 ⟨"B", 2, 4⟩
      ⟨[(2, mkAppt exA 2 100)], [2], []⟩ (mkAppt exA 2 100) (by decide)
      (by decide)⟩

/-- C9: the generic day assigner is total, and every candidate passing its
filter (wants the day, non-empty availability) ends the run in exactly one
of the two outcomes — their `player_id` is carried by some appointment, or
it is a member of the unassigned list — never both and never neither
(candidate lists with distinct `player_id`s, per the data model). -/
theorem C9_exactly_one_outcome (entries : List AppointmentEntry)
    (wants : AppointmentEntry → Bool) (gav : AppointmentEntry → List Nat)
    (score : AppointmentEntry → Nat) (pre locked : List Nat)
    (hnd : (entries.map AppointmentEntry.player_id).Nodup)
    (e : AppointmentEntry) (he : e ∈ entries) (hw : wants e = true)
    (hav : (gav e).isEmpty = false) :
    Xor'
      (AppointmentEntry.player_id e ∈
        pidsOf (schedule_day_generic_with_locked_slots entries wants gav
          score pre locked).appointments)
      (AppointmentEntry.player_id e ∈
        (schedule_day_generic_with_locked_slots entries wants gav score pre
          locked).unassigned) := by
  have hg := generic_spec entries wants gav score pre locked
    (hnd.sublist ((List.filter_sublist _).map _))
  refine hg.2.2.2.2.2.2 e ?_
  refine List.mem_filter.mpr ⟨he, ?_⟩
  rw [hw, hav]
  rfl

/-- C9 (witness): on Example A's input, candidate B ends in exactly one
outcome (scheduled, since it wins slot 5 through the chain). -/
theorem C9_exactly_one_outcome_witness :
    (([exA, exB].map AppointmentEntry.player_id).Nodup) ∧
    exB ∈ [exA, exB] ∧
    Xor'
      (AppointmentEntry.player_id exB ∈
        pidsOf (schedule_day_generic_with_locked_slots [exA, exB]
          (fun e => e.wants_troops) (fun e => e.troops_available_slots)
          (fun e => e.troops_speedups) [] []).appointments)
      (AppointmentEntry.player_id exB ∈
        (schedule_day_generic_with_locked_slots [exA, exB]
          (fun e => e.wants_troops) (fun e => e.troops_available_slots)
          (fun e => e.troops_speedups) [] []).unassigned) :=
  ⟨by decide, by decide,
    C9_exactly_one_outcome [exA, exB] (fun e => e.wants_troops)
      (fun e => e.troops_available_slots) (fun e => e.troops_speedups)
      [] [] (by decide) exB (by decide) (by decide) (by decide)⟩

/-- C10: for every input (no preconditions) and every key of the
appointment map produced by any of the three day schedulers, the stored
appointment's `slot` field equals the key it is stored under, including
after eviction-chain moves and the research force-seat. -/
theorem C10_slot_field_matches_key :
    (∀ (entries : List AppointmentEntry) (wants : AppointmentEntry → Bool)
      (gav : AppointmentEntry → List Nat) (score : AppointmentEntry → Nat)
      (pre locked : List Nat) (k : Nat) (a : ScheduledAppointment),
      mapGet (schedule_day_generic_with_locked_slots entries wants gav
        score pre locked).appointments k = some a → a.slot = k) ∧
    (∀ (entries : List AppointmentEntry) (pre : List Nat) (k : Nat)
      (a : ScheduledAppointment),
      mapGet (schedule_construction_day_with_locked entries
        pre).appointments k = some a → a.slot = k) ∧
    (∀ (entries : List AppointmentEntry) (cons_sched : DaySchedule)
      (pre : List Nat) (k : Nat) (a : ScheduledAppointment),
      mapGet (schedule_research_day_with_locked entries cons_sched
        pre).appointments k = some a → a.slot = k) := by
  refine ⟨?_, ?_, ?_⟩
  · intro entries wants gav score pre locked k a ha
    exact (generic_binv entries wants gav score pre locked).2.2 k a ha
  · intro entries pre k a ha
    exact (construction_binv entries pre).2.2 k a ha
  · intro entries cons_sched pre k a ha
    exact (research_binv entries cons_sched pre).2.2 k a ha

/-- C10 (witness): on Example A's input, the appointment stored under key 5
records slot 5. -/
theorem C10_slot_field_matches_key_witness :
    mapGet (schedule_day_generic_with_locked_slots [exA, exB]
      (fun e => e.wants_troops) (fun e => e.troops_available_slots)
      (fun e => e.troops_speedups) [] []).appointments 5 =
      some (mkAppt exB 5 50) ∧
    (mkAppt exB 5 50).slot = 5 :=
  ⟨by decide,
    C10_slot_field_matches_key.1 [exA, exB] (fun e => e.wants_troops)
      (fun e => e.troops_available_slots) (fun e => e.troops_speedups)
      [] [] 5 (mkAppt exB 5 50) (by decide)⟩

end Kingshot
